import Mathlib

/-!
# BomBuddy extraction-and-normalization engine: a shallow embedding

This file embeds, in Lean 4, the core functions of the BomBuddy repository
(`src/parsers/_common.py`, `src/strings.py`, `src/frames.py`, `src/rows.py`,
`src/parsers/_v3_bom_parser.py`, `src/models/_v3_fields.py`,
`src/utils/text_sanitizer.py`) and proves or refutes the frozen claims about
them.

Modelling conventions:
* Python strings are Lean `String`s; `str.split(sep)` is modelled character
  by character (`splitChars` below) with the same semantics (empty pieces are
  kept, `"".split(",") = [""]`).
* Spreadsheet cells are modelled by `Cell` (a text cell or an empty/NaN
  cell) for the grid-level parser functions, and by `PCell` (text, numeric,
  or NaN) for the table-level transformation functions, because the latter
  write numeric quantities into rows.  Python `str(cell)` on a NaN cell
  yields `"nan"`; on a text cell it is the identity.
* Machine floats of the source (`Qty` columns, Jaccard similarity ratios)
  are modelled by `ℚ`; the quantities and similarity ratios reached by the
  claims are small and exactly representable.
* Python exceptions and `exit()` calls are modelled by `Except PyErr` or by
  dedicated result types.
-/

/-- Python exceptions (and `exit()` terminations) raised by the embedded
functions. -/
inductive PyErr where
  | valueError (msg : String)
  | typeError
  | keyError
  | zeroDivisionError
  | attributeError
  | systemExit
  deriving Repr, DecidableEq

/-! ## Python string primitives -/

/-- Python `str.lower()` restricted to the ASCII range (all strings compared
by the source after `_normalize_label_text` are ASCII). -/
def pyLower (s : String) : String :=
  String.mk (s.data.map Char.toLower)

/-- Membership in Python's `string.printable`: the printable ASCII range
`0x20`–`0x7e` together with the whitespace controls TAB, LF, VT, FF, CR. -/
def isPrintableAscii (c : Char) : Bool :=
  (0x20 ≤ c.toNat && c.toNat ≤ 0x7e) || (0x9 ≤ c.toNat && c.toNat ≤ 0xd)

/-- The whitespace characters recognised by the regex `\s` that can survive
the printable-ASCII filter of `remove_non_printable_ascii`: space, TAB, LF,
VT, FF, CR. -/
def isPyWhitespace (c : Char) : Bool :=
  c = ' ' || (0x9 ≤ c.toNat && c.toNat ≤ 0xd)

/-- `src/parsers/_common.py::_normalize_label_text` applied to a value that is
already a string: remove non-printable ASCII characters, remove all
whitespace, lowercase. -/
def normalize_label_text (s : String) : String :=
  pyLower (String.mk ((s.data.filter isPrintableAscii).filter
    (fun c => ¬ isPyWhitespace c)))

/-- Python's substring operator `needle in hay` on strings: `needle.data` is a
contiguous infix of `hay.data`. -/
def pyContains (hay needle : String) : Bool :=
  decide (needle.data <:+: hay.data)

/-- Character-level worker for Python `str.split`: split a character list at
every separator character, keeping empty pieces (so splitting the empty list
yields `[[]]`, exactly as `"".split(sep) == [""]`). -/
def splitChars (isSep : Char → Bool) : List Char → List (List Char)
  | [] => [[]]
  | c :: cs =>
    match splitChars isSep cs with
    | [] => [[]]
    | g :: gs => if isSep c then [] :: g :: gs else (c :: g) :: gs

/-- Python `s.split(sep)` for a one-character separator, and
`re.split("[...]", s)` for a character class: split `s` at every character
satisfying `isSep`. -/
def pySplit (isSep : Char → Bool) (s : String) : List String :=
  (splitChars isSep s.data).map String.mk

/-- Python `sep.join(parts)` for a one-character separator: the parts
concatenated with the separator between consecutive parts. -/
def pyJoin (sep : Char) : List String → String
  | [] => ""
  | [s] => s
  | s :: rest => s ++ String.mk [sep] ++ pyJoin sep rest

/-- Decidable equality for `Except`, used to evaluate the embedded fallible
functions on concrete inputs. -/
instance {e a : Type} [DecidableEq e] [DecidableEq a] : DecidableEq (Except e a) :=
  fun x y =>
    match x, y with
    | .ok u, .ok v =>
      if h : u = v then .isTrue (by rw [h]) else .isFalse (fun hc => h (Except.ok.inj hc))
    | .error u, .error v =>
      if h : u = v then .isTrue (by rw [h]) else .isFalse (fun hc => h (Except.error.inj hc))
    | .ok _, .error _ => .isFalse (fun hc => Except.noConfusion hc)
    | .error _, .ok _ => .isFalse (fun hc => Except.noConfusion hc)

/-! ## Grid model and the Table Locator (`src/parsers/_common.py`) -/

/-- A spreadsheet cell as seen by the grid-level parser helpers: either a text
cell or an empty/NaN cell. -/
inductive Cell where
  | cstr (s : String)
  | cnan
  deriving Repr, DecidableEq

/-- Python `str(cell)` / `pandas astype(str)` on a `Cell`: a text cell is
unchanged, the NaN of an empty cell renders as `"nan"`. -/
def Cell.pyStr : Cell → String
  | .cstr s => s
  | .cnan => "nan"

/-- `isinstance(cell, str)`: the string payload of a text cell, `none` for a
NaN cell (the source skips non-string cells during row scoring). -/
def Cell.str? : Cell → Option String
  | .cstr s => some s
  | .cnan => none

/-- A grid: an ordered list of rows of cells, as handed to the parsers. -/
abbrev Grid := List (List Cell)

/-- `NO_BEST_MATCH_ROW` from `src/parsers/_common.py`. -/
def NO_BEST_MATCH_ROW : Int := -1

/-- The per-row match count of `find_row_with_most_label_matches`: normalize
every string cell of the row, and count how many of the normalized labels
occur as a substring of some normalized cell (each label counted at most
once). -/
def rowScore (labels : List String) (row : List Cell) : Nat :=
  let sanitized := (row.filterMap Cell.str?).map normalize_label_text
  (labels.map normalize_label_text).countP
    (fun nl => sanitized.any (fun nc => pyContains nc nl))

/-- The row loop of `find_row_with_most_label_matches`: walk the rows keeping
the index of the strictly highest score seen so far (ties keep the earlier
row). -/
def findRowGo (labels : List String) :
    List (List Cell) → Nat → Int → Nat → Int
  | [], _, best, _ => best
  | row :: rest, idx, best, high =>
    if high < rowScore labels row then
      findRowGo labels rest (idx + 1) ((idx : Int)) (rowScore labels row)
    else
      findRowGo labels rest (idx + 1) best high

/-- `src/parsers/_common.py::find_row_with_most_label_matches`: index of the
row with the most normalized substring label matches, `-1` when no label
matches anywhere. -/
def find_row_with_most_label_matches (df : Grid) (labels : List String) : Int :=
  findRowGo labels df 0 NO_BEST_MATCH_ROW 0

/-- `src/parsers/_common.py::find_unmatched_labels_in_best_row`: the required
labels that are not exactly (after normalization) present in the
best-matching row; all of them when no best row exists. -/
def find_unmatched_labels_in_best_row (df : Grid) (required_labels : List String) :
    List String :=
  let best := find_row_with_most_label_matches df required_labels
  if best = NO_BEST_MATCH_ROW then required_labels
  else
    let row_values := (df.getD best.toNat []).map Cell.pyStr
    let normalized_row := row_values.map normalize_label_text
    required_labels.filter
      (fun l => ¬ normalized_row.any (fun nc => nc = normalize_label_text l))

/-- `src/parsers/_common.py::extract_header`: the rows strictly above the
best-matching row; fails when the best row is missing or is the first row, or
when the slice is empty. -/
def extract_header (df : Grid) (labels : List String) :
    Except PyErr Grid :=
  let r := find_row_with_most_label_matches df labels
  if r ≤ 0 then
    .error (.valueError "Header extraction failed: unable to locate BOM table header row.")
  else
    let bom_header := df.take r.toNat
    if bom_header = [] then
      .error (.valueError "Header extraction failed: resulting header is empty.")
    else .ok bom_header

/-- `src/parsers/_common.py::extract_table`: the rows from the best-matching
row onward (header inclusive); fails when the best row is missing or when the
slice holds at most the header row. -/
def extract_table (df : Grid) (labels : List String) :
    Except PyErr Grid :=
  let r := find_row_with_most_label_matches df labels
  if r < 0 ∨ df.length ≤ r then
    .error (.valueError "Table extraction failed: unable to locate BOM table start row.")
  else
    let bom_table := df.drop r.toNat
    if bom_table.length ≤ 1 then
      .error (.valueError "Table extraction failed: no data rows found in the table.")
    else .ok bom_table

/-- `src/parsers/_common.py::has_all_labels_in_a_row`: true when every
required label is exactly present (after normalization) in the best-matching
row.  The sheet name is only used for logging in the source. -/
def has_all_labels_in_a_row (name : String) (df : Grid)
    (required_labels : List String) : Bool :=
  let _ := name
  find_unmatched_labels_in_best_row df required_labels = []

/-- `src/models/_v3_fields.py::REQUIRED_V3_BOM_IDENTIFIERS`. -/
def REQUIRED_V3_BOM_IDENTIFIERS : List String :=
  ["Classification", "Designator", "Manufacturer", "Manufacturer P/N"]

/-- `src/parsers/_v3_bom_parser.py::is_v3_bom`, modelled at its actual runtime
behaviour: the loop body calls `common.has_all_identifiers_in_single_row`,
but `src/parsers/_common.py` defines no attribute of that name (the function
there is `has_all_labels_in_a_row`), so the very first loop iteration raises
`AttributeError`; only an empty sheet list returns `False`. -/
def is_v3_bom (sheets : List (String × Grid)) : Except PyErr Bool :=
  match sheets with
  | [] => .ok false
  | _ :: _ => .error .attributeError

/-! ## Similarity matchers (`src/strings.py`) -/

/-- Sharing combinator: force a natural number to a literal before passing
it on, so that repeated uses of the value do not repeat its computation
during kernel reduction. -/
def natShareG {α : Type} (n : Nat) (k : Nat → α) : α :=
  match n with
  | 0 => k 0
  | m + 1 => k (m + 1)

/-- `natShareG n k` simply applies `k` to `n`. -/
theorem natShareG_eq {α : Type} (n : Nat) (k : Nat → α) : natShareG n k = k n := by
  cases n <;> rfl

/-- Sharing combinator for a list of naturals: force the whole list to a
literal before passing it on. -/
def natListShare {α : Type} : List Nat → (List Nat → α) → α
  | [], k => k []
  | n :: ns, k => natShareG n (fun m => natListShare ns (fun ms => k (m :: ms)))

/-- `natListShare l k` simply applies `k` to `l`. -/
theorem natListShare_eq {α : Type} : ∀ (l : List Nat) (k : List Nat → α),
    natListShare l k = k l := by
  intro l
  induction l with
  | nil => intro k; rfl
  | cons n ns ih => intro k; rw [natListShare, natShareG_eq, ih]

/-- Python `set(s)`: the set of characters of a string, modelled as the
duplicate-free list of its character code points (code points and characters
are in bijection, so the set sizes agree). -/
def charSet (s : String) : List Nat := (s.data.map Char.toNat).dedup

/-- `len(set1.intersection(set2))` for duplicate-free lists. -/
def interCard (a b : List Nat) : Nat := (a.filter (fun c => c ∈ b)).length

/-- `len(set1.union(set2))` for duplicate-free lists. -/
def unionCard (a b : List Nat) : Nat :=
  a.length + (b.filter (fun c => c ∉ a)).length

/-- The Jaccard similarity computed inside `find_best_match_jaccard`:
`|set(test) ∩ set(ref)| / |set(test) ∪ set(ref)|` (as an exact rational in
place of the source's float; `mkRat a b` is the rational `a / b`). -/
def jaccardSim (test ref : String) : ℚ :=
  mkRat (interCard (charSet test) (charSet ref))
    (unionCard (charSet test) (charSet ref))

/-- The reference loop of `find_best_match_jaccard`: keep the first reference
whose similarity strictly exceeds the best seen so far (initially `0`, so a
reference is only ever picked with positive similarity).  Mirrors the
source's `ZeroDivisionError` when both the test string and a reference
string are empty. -/
def jaccardGo (test : String) :
    List String → Option String → ℚ → Except PyErr (Option String)
  | [], best, _ => .ok best
  | r :: rs, best, maxSim =>
    natListShare (charSet test) (fun set1 =>
    natListShare (charSet r) (fun set2 =>
    natShareG (interCard set1 set2) (fun inter =>
    natShareG (unionCard set1 set2) (fun union =>
    if union = 0 then .error .zeroDivisionError
    else if maxSim < mkRat inter union then jaccardGo test rs (some r) (mkRat inter union)
    else jaccardGo test rs best maxSim))))

/-- Each step of `jaccardGo` computes the Python loop body: the guard on the
union size and the comparison with the running best similarity. -/
theorem jaccardGo_cons (test r : String) (rs : List String)
    (best : Option String) (maxSim : ℚ) :
    jaccardGo test (r :: rs) best maxSim =
      (if unionCard (charSet test) (charSet r) = 0 then .error .zeroDivisionError
       else if maxSim < jaccardSim test r then
         jaccardGo test rs (some r) (jaccardSim test r)
       else jaccardGo test rs best maxSim) := by
  rw [jaccardGo, natListShare_eq, natListShare_eq, natShareG_eq, natShareG_eq]
  rfl

/-- `src/strings.py::find_best_match_jaccard`: the first reference string of
maximal (and positive) Jaccard character-set similarity with the test
string; `None` when every similarity is zero. -/
def find_best_match_jaccard (test_string : String) (reference_strings : List String) :
    Except PyErr (Option String) :=
  jaccardGo test_string reference_strings none 0

/-- One dynamic-programming row update for the Levenshtein distance, over
character code points: given the distance row `prev` for a source prefix
(cells above-right of the current cell), the cost `diag` in the corner, the
running cell `left`, and the remaining target code points, produce the tail
of the next row.  Cells are forced with `natShareG` so that kernel
evaluation of the dynamic program stays linear. -/
def levStep (a : Nat) : List Nat → List Nat → Nat → Nat → List Nat
  | [], _, _, _ => []
  | b :: bs, prev, diag, left =>
    match prev with
    | [] =>
      natShareG (Nat.min (Nat.min (0 + 1) (left + 1))
          (diag + if a = b then 0 else 1)) (fun cur =>
        cur :: levStep a bs [] 0 cur)
    | up :: ps =>
      natShareG up (fun upv =>
        natShareG (Nat.min (Nat.min (upv + 1) (left + 1))
            (diag + if a = b then 0 else 1)) (fun cur =>
          cur :: levStep a bs ps upv cur))

/-- The full next row of the Levenshtein dynamic program. -/
def levNextRow (a : Nat) (target : List Nat) (prev : List Nat) : List Nat :=
  match prev with
  | [] => natShareG 1 (fun first => first :: levStep a target [] 0 first)
  | h :: ps =>
    natShareG h (fun hv =>
      natShareG (hv + 1) (fun first => first :: levStep a target ps hv first))

/-- Unit-cost Levenshtein edit distance between two strings, as computed by
the `Levenshtein.distance` library call of the source (standard
dynamic-programming formulation, over the strings' code points — code
points and characters are in bijection, so the distances agree). -/
def levDistance (s t : String) : Nat :=
  natListShare (t.data.map Char.toNat) (fun tc =>
    natListShare (s.data.map Char.toNat) (fun sc =>
      (sc.foldl (fun row a => levNextRow a tc row)
        (List.range (tc.length + 1))).getLastD 0))

/-- The reference loop of `find_best_match_levenshtein`: keep the first
reference whose distance is strictly below the best seen so far (initially
`+inf`, modelled by `ℕ∞`, so the first reference always wins). -/
def levenshteinGo (test : String) :
    List String → Option String → ℕ∞ → Option String
  | [], best, _ => best
  | r :: rs, best, minDist =>
    natShareG (levDistance test r) (fun d =>
      if (d : ℕ∞) < minDist then levenshteinGo test rs (some r) (d : ℕ∞)
      else levenshteinGo test rs best minDist)

/-- Each step of `levenshteinGo` computes the Python loop body: the distance
of the current reference and the comparison with the running minimum. -/
theorem levenshteinGo_cons (test r : String) (rs : List String)
    (best : Option String) (minDist : ℕ∞) :
    levenshteinGo test (r :: rs) best minDist =
      (if (levDistance test r : ℕ∞) < minDist then
        levenshteinGo test rs (some r) (levDistance test r)
      else levenshteinGo test rs best minDist) := by
  rw [levenshteinGo, natShareG_eq]

/-- `src/strings.py::find_best_match_levenshtein`: the first reference string
of minimal Levenshtein distance to the test string; `None` only for an empty
reference list. -/
def find_best_match_levenshtein (test_string : String) (reference_strings : List String) :
    Option String :=
  levenshteinGo test_string reference_strings none ⊤

/-! ## Duplicate-designator check (`src/strings.py::check_duplicate_ref_des`) -/

/-- The designator-column search shared by `check_duplicate_ref_des` and
`check_qty_matched_ref_des_count`: the indices of the headers containing
`"Designator"` as a (case-sensitive) substring. -/
def designatorCols (headers : List String) : List Nat :=
  (List.range headers.length).filter
    (fun i => pyContains (headers.getD i "") "Designator")

/-- The seen-set loop of `check_duplicate_ref_des`: the items that have
already occurred earlier in the list (or in `seen`), in order of their
repeated occurrence. -/
def findDups (seen : List String) : List String → List String
  | [] => []
  | x :: xs => if x ∈ seen then x :: findDups seen xs else findDups (x :: seen) xs

/-- The designator tokens contributed by one row: `str(cell)` split at every
`,`, `:` or `;`, keeping empty tokens. -/
def rowTokens (di : Nat) (row : List Cell) : List String :=
  pySplit (fun c => c = ',' ∨ c = ':' ∨ c = ';') ((row.getD di Cell.cnan).pyStr)

/-- Outcome of `check_duplicate_ref_des`: a `ValueError` on the column
search, a duplicate-listing `exit()`, or a clean pass. -/
inductive DupRes where
  | colError (msg : String)
  | aborted (dups : List String)
  | passed
  deriving Repr, DecidableEq

/-- `src/strings.py::check_duplicate_ref_des`: find the single
`"Designator"` column, split every row's cell (as a string) at `,`/`:`/`;`
into a global token list, and abort listing the duplicated tokens when any
token repeats; pass otherwise. -/
def check_duplicate_ref_des (headers : List String) (rows : List (List Cell)) :
    DupRes :=
  match designatorCols headers with
  | [di] =>
    match findDups [] (rows.flatMap (rowTokens di)) with
    | [] => .passed
    | d :: ds => .aborted (d :: ds)
  | [] => .colError "No match found for Ref des column."
  | _ => .colError "More than one column matched the 'Designator' header."

/-! ## Table-level cells and column lookup (`src/columns.py`, `src/frames.py`) -/

/-- A spreadsheet cell as seen by the table-level transformation functions:
text, a numeric value (the source's ints/floats, modelled by `ℚ`), or NaN. -/
inductive PCell where
  | ps (s : String)
  | pn (q : ℚ)
  | pnan
  deriving Repr, DecidableEq

/-- Reading a cell that the source uses as a string (`.split`, `.lower`,
…): a non-string cell raises, as the corresponding Python attribute access
would. -/
def PCell.getStr : PCell → Except PyErr String
  | .ps s => .ok s
  | _ => .error .typeError

/-- `src/columns.py::get_single_header_index`: the index of the single header
matching the reference string, case-insensitively, fully (`full_match`) or as
a substring; a `ValueError` if no or several headers match. -/
def get_single_header_index (headers : List String) (reference_string : String)
    (full_match : Bool) : Except PyErr Nat :=
  let matched := (List.range headers.length).filter (fun i =>
    if full_match then pyLower reference_string = pyLower (headers.getD i "")
    else pyContains (pyLower (headers.getD i "")) (pyLower reference_string))
  match matched with
  | [i] => .ok i
  | [] => .error (.valueError "No header matched the reference string.")
  | _ => .error (.valueError "More than one header matched the reference string.")

/-! ## Quantity/designator-count check (`src/frames.py::check_qty_matched_ref_des_count`) -/

/-- The exact-match `"Qty"` column search of `check_qty_matched_ref_des_count`. -/
def qtyCols (headers : List String) : List Nat :=
  (List.range headers.length).filter (fun i => headers.getD i "" = "Qty")

/-- The comparison `count_of_designator != count_of_quantity` of the source:
a Python `int` compares equal to a numeric cell of the same value and
unequal to any string or NaN cell. -/
def PCell.neNat (c : PCell) (n : Nat) : Bool :=
  match c with
  | .pn q => decide (q ≠ mkRat n 1)
  | _ => true

/-- Outcome of `check_qty_matched_ref_des_count`: a `ValueError` on the
column searches, a `TypeError` on a non-string designator cell, an `exit()`
naming the first offending row's leading cell, or a clean pass. -/
inductive QtyChk where
  | colError (msg : String)
  | typeErr
  | failure (item : PCell)
  | passed
  deriving Repr, DecidableEq

/-- The row loop of `check_qty_matched_ref_des_count`. -/
def qtyChkGo (qi di : Nat) : List (List PCell) → QtyChk
  | [] => .passed
  | row :: rest =>
    match (row.getD di PCell.pnan).getStr with
    | .error _ => .typeErr
    | .ok s =>
      if (row.getD qi PCell.pnan).neNat (pySplit (· = ',') s).length then
        .failure (row.getD 0 PCell.pnan)
      else qtyChkGo qi di rest

/-- `src/frames.py::check_qty_matched_ref_des_count`: find the single exact
`"Qty"` column and the single partial `"Designator"` column, then fail on the
first row whose quantity cell differs from the number of comma-separated
designator tokens, naming that row's first cell. -/
def check_qty_matched_ref_des_count (headers : List String)
    (rows : List (List PCell)) : QtyChk :=
  match qtyCols headers with
  | [qi] =>
    match designatorCols headers with
    | [di] => qtyChkGo qi di rows
    | [] => .colError "Designator column not found."
    | _ => .colError "More than one column matched the designator column search."
  | [] => .colError "No partial match found in the header."
  | _ => .colError "More than one column matched the reference string."

/-! ## Multi-manufacturer split (`src/frames.py::split_manufacturers_to_separate_rows`) -/

/-- The split-exempt component-type substrings of
`split_manufacturers_to_separate_rows`. -/
def exceptionList : List String := ["Res", "Cap", "Ind"]

/-- The expansion of one row by `split_manufacturers_to_separate_rows`:
read the component, manufacturer and part-number cells as strings, split the
latter two at newlines, pad a single part number to the manufacturer count,
reject a count mismatch, and emit one row per manufacturer/part-number pair
(the first keeping the original quantity cell, the others getting quantity
`0`) unless the component type contains a split-exempt substring. -/
def splitManufacturerRow (ci ni pi qi : Nat) (row : List PCell) :
    Except PyErr (List (List PCell)) := do
  let component_string ← (row.getD ci PCell.pnan).getStr
  let name_string ← (row.getD ni PCell.pnan).getStr
  let part_number_string ← (row.getD pi PCell.pnan).getStr
  let name_list := pySplit (· = '\n') name_string
  let part_number_list := pySplit (· = '\n') part_number_string
  let part_number_list ←
    if name_list.length ≠ part_number_list.length then
      if part_number_list.length = 1 then
        pure (part_number_list ++ List.replicate name_list.length
          (part_number_list.getD 0 ""))
      else .error .systemExit
    else pure part_number_list
  -- `split_flag` of the source is `true` unless some exception substring
  -- occurs in the component type; `if not split_flag` keeps the row whole.
  if exceptionList.any
      (fun ref => pyContains (pyLower component_string) (pyLower ref)) then
    return [row]
  else
    return (List.range name_list.length).map (fun i =>
      let r := ((row.set ni (PCell.ps (name_list.getD i ""))).set pi
        (PCell.ps (part_number_list.getD i "")))
      if i ≠ 0 then r.set qi (PCell.pn 0) else r)

/-- The row loop of `split_manufacturers_to_separate_rows`: expand each row
in order, appending the produced rows. -/
def splitRowsLoop (ci ni pi qi : Nat) : List (List PCell) →
    Except PyErr (List (List PCell))
  | [] => .ok []
  | row :: rest => do
    let rs ← splitManufacturerRow ci ni pi qi row
    let rest2 ← splitRowsLoop ci ni pi qi rest
    return rs ++ rest2

/-- `src/frames.py::split_manufacturers_to_separate_rows`: locate the
`Manufacturer` (full match), `Component` (full match), `P/N` (partial) and
`Qty` (partial) columns, then expand every row with `splitManufacturerRow`. -/
def split_manufacturers_to_separate_rows (headers : List String)
    (rows : List (List PCell)) : Except PyErr (List (List PCell)) := do
  let name_index ← get_single_header_index headers "Manufacturer" true
  let component_index ← get_single_header_index headers "Component" true
  let part_number_index ← get_single_header_index headers "P/N" false
  let qty_index ← get_single_header_index headers "Qty" false
  splitRowsLoop component_index name_index part_number_index qty_index rows

/-! ## Taxonomy Normalizer (`src/frames.py::component_dict`,
`src/frames.py::normalize_component_type_label`) -/

/-- `src/frames.py::component_dict`, in source (insertion) order: reference
component-type spellings mapped to normalized component-type names. -/
def component_dict : List (String × String) := [
  ("Battery Terminals", "Battery Terminals"),
  ("Buzzer", "Buzzer"),
  ("Cable", "Cable"),
  ("Capacitor", "Capacitor"),
  ("SMD Capacitor", "Capacitor"),
  ("Connector", "Connector"),
  ("Crystal", "Crystal"),
  ("Diode", "Diode"),
  ("SMD Switching diode", "Diode"),
  ("SMD Diode", "Diode"),
  ("Electromagnet", "Electromagnet"),
  ("Electrolytic Capacitor", "Capacitor"),
  ("Foam", "Foam"),
  ("FUSE", "FUSE"),
  ("Fuse", "FUSE"),
  ("Heatsink", "Heatsink"),
  ("IC", "IC"),
  ("Inductor", "Inductor"),
  ("Jumper", "Jumper"),
  ("LCD", "LCD"),
  ("LED", "LED"),
  ("SMD LED", "LED"),
  ("LED Module", "LED Module"),
  ("MCU", "MCU"),
  ("MOV", "MOV/Varistor"),
  ("Varistor", "MOV/Varistor"),
  ("Optocoupler", "Optocoupler"),
  ("PCB", "PCB"),
  ("Relay", "Relay"),
  ("Resistor", "Resistor"),
  ("SMD Resistor", "Resistor"),
  ("Sensor", "Sensor"),
  ("Spring", "Spring"),
  ("Switch", "Switch"),
  ("TCO", "TCO"),
  ("Thermistors", "Thermistors"),
  ("Transformer", "Transformer"),
  ("Transistor", "Transistor"),
  ("SMD Transistor", "Transistor"),
  ("Triac", "Triac/SCR"),
  ("SCR", "Triac/SCR"),
  ("Unknown", "Unknown/Misc"),
  ("Misc", "Unknown/Misc"),
  ("Voltage Regulator", "Voltage Regulator"),
  ("Regulator", "Voltage Regulator"),
  ("Wire", "Wire"),
  ("BJT", "Transistor"),
  ("Rectifier Bridge", "Diode"),
  ("Chimney", "Chimney"),
  ("Disc Ceramic Capacitor", "Capacitor"),
  ("FRD", "Diode"),
  ("SMD FRD", "Diode"),
  ("Heat Shrink Tubing", "Heat Shrink"),
  ("Heat Sink", "Heat Sink"),
  ("Rectifier", "Diode"),
  ("SMD Rectifier", "Diode"),
  ("IR Receiver", "Diode"),
  ("Lens", "Lens"),
  ("MOS", "Transistor"),
  ("Operational amplifier", "IC"),
  ("PCB Tab", "Connector"),
  ("Quick fit terminal", "Connector"),
  ("Screw", "Screw"),
  ("Tact Switch", "Switch"),
  ("Touch spring", "Spring"),
  ("TVS", "Diode"),
  ("Wire wound resistor", "Resistor"),
  ("Zener", "Diode"),
  ("SMD Zener", "Diode")]

/-- `list(component_dict.keys())`, in insertion order. -/
def componentKeys : List String := component_dict.map Prod.fst

/-- Python `component_dict[key]` for a key known to be present
(`find_best_match_*` only ever return elements of `componentKeys`). -/
def componentLookup (key : String) : String :=
  ((component_dict.find? (fun kv => kv.1 = key)).map Prod.snd).getD ""

/-- The first `"Component"` column found by
`normalize_component_type_label` (its header loop breaks at the first
case-sensitive substring match). -/
def componentCol (headers : List String) : Option Nat :=
  (List.range headers.length).find?
    (fun i => pyContains (headers.getD i "") "Component")

/-- The per-row rewrite of `normalize_component_type_label`: run both
similarity matchers against the component-dictionary keys and replace the
component-type value by the dictionary value of the matched key only when
both matchers agree; `component_dict[None]` (both matchers unmatched) would
raise a `KeyError`. -/
def normalizeComponentValue (v : String) : Except PyErr String := do
  let key_match1 ← find_best_match_jaccard v componentKeys
  let key_match2 := find_best_match_levenshtein v componentKeys
  if key_match1 = key_match2 then
    match key_match1 with
    | some k => return componentLookup k
    | none => .error .keyError
  else
    return v

/-- The row loop of `normalize_component_type_label`: rewrite each row's
component-type cell in order. -/
def normalizeRowsLoop (ci : Nat) : List (List String) →
    Except PyErr (List (List String))
  | [] => .ok []
  | row :: rest => do
    let v ← normalizeComponentValue (row.getD ci "")
    let rest2 ← normalizeRowsLoop ci rest
    return (row.set ci v) :: rest2

/-- `src/frames.py::normalize_component_type_label`: locate the first
`"Component"` column (a `ValueError` when there is none) and rewrite every
row's component-type value with the two-matcher consensus.  Rows are
modelled by their string cells; only the component cell is inspected. -/
def normalize_component_type_label (headers : List String)
    (rows : List (List String)) : Except PyErr (List (List String)) :=
  match componentCol headers with
  | none => .error (.valueError "No partial match found in the header.")
  | some ci => normalizeRowsLoop ci rows

/-! ## Quantity/designator split (`src/rows.py::duplicate_row_for_multiple_quantity`,
`src/frames.py::split_multiple_quantity`) -/

/-- A BOM record as seen by `duplicate_row_for_multiple_quantity`, after the
source's `df["Qty"].astype(float)` cast: the quantity (an exact `ℚ` in place
of the source's float), the comma-joined designator list, and the remaining
cells, which the split copies unchanged. -/
structure QRow where
  qty : ℚ
  designator : String
  rest : List PCell
  deriving Repr, DecidableEq

/-- The `while` loop of `duplicate_row_for_multiple_quantity` for one record:
while the quantity is an integer strictly above `1`, emit a copy with
quantity `1` carrying the first comma-separated designator, and continue with
the decremented quantity and the re-joined remaining designators; finally
emit the record itself. -/
def peelRow (r : QRow) : List QRow :=
  if h : 1 < r.qty ∧ r.qty.den = 1 then
    let ref_des_list := pySplit (· = ',') r.designator
    { qty := 1, designator := ref_des_list.headD "", rest := r.rest } ::
      peelRow { qty := r.qty - 1,
                designator := pyJoin ',' ref_des_list.tail,
                rest := r.rest }
  else [r]
termination_by r.qty.num.toNat
decreasing_by
  have hden : ((r.qty.num : ℚ)) = r.qty := Rat.coe_int_num_of_den_eq_one h.2
  have hnum2 : 2 ≤ r.qty.num := by
    by_contra hc
    push_neg at hc
    have : (r.qty.num : ℚ) ≤ 1 := by exact_mod_cast Int.lt_add_one_iff.mp hc
    rw [hden] at this
    exact absurd h.1 (not_lt.mpr this)
  have hsub : r.qty - 1 = ((r.qty.num - 1 : ℤ) : ℚ) := by
    push_cast
    rw [hden]
  simp only [hsub, Rat.num_intCast]
  omega

/-- `src/rows.py::duplicate_row_for_multiple_quantity`: apply the
quantity/designator peel loop to every record, in order. -/
def duplicate_row_for_multiple_quantity (rows : List QRow) : List QRow :=
  rows.flatMap peelRow

/-- `src/frames.py::split_multiple_quantity`: delegates to
`duplicate_row_for_multiple_quantity` (the surrounding code only prints row
counts). -/
def split_multiple_quantity (rows : List QRow) : List QRow :=
  duplicate_row_for_multiple_quantity rows

/-! ## Properties of the row-scoring loop -/

/-- A row's match count never exceeds the number of labels. -/
theorem rowScore_le (labels : List String) (row : List Cell) :
    rowScore labels row ≤ labels.length := by
  unfold rowScore
  simpa using List.countP_le_length _

/-- Exact presence of a string cell for each label forces the maximal match
count. -/
theorem rowScore_of_exact (labels : List String) (row : List Cell)
    (hex : ∀ l ∈ labels, ∃ s, Cell.cstr s ∈ row ∧
      normalize_label_text l = normalize_label_text s) :
    rowScore labels row = labels.length := by
  unfold rowScore
  rw [show labels.length = (labels.map normalize_label_text).length by simp]
  rw [List.countP_eq_length]
  intro nl hnl
  rcases List.mem_map.mp hnl with ⟨l, hl, rfl⟩
  rcases hex l hl with ⟨s, hsmem, hnorm⟩
  have hs : s ∈ row.filterMap Cell.str? :=
    List.mem_filterMap.mpr ⟨Cell.cstr s, hsmem, rfl⟩
  refine List.any_eq_true.mpr ⟨normalize_label_text s, List.mem_map.mpr ⟨s, hs, rfl⟩, ?_⟩
  unfold pyContains
  rw [hnorm]
  exact decide_eq_true (List.infix_refl _)

/-- The scan loop keeps its accumulator when every remaining row's score is
within the current high mark. -/
theorem findRowGo_const (labels : List String) :
    ∀ (rows : List (List Cell)) (idx : Nat) (best : Int) (high : Nat),
      (∀ row ∈ rows, rowScore labels row ≤ high) →
      findRowGo labels rows idx best high = best := by
  intro rows
  induction rows with
  | nil => intro idx best high _; rfl
  | cons row rest ih =>
    intro idx best high hall
    rw [findRowGo, if_neg (by simpa using hall row (List.mem_cons_self _ _))]
    exact ih _ _ _ (fun r hr => hall r (List.mem_cons_of_mem _ hr))

/-- The scan loop returns the index of the first row attaining a score `m`
that strictly dominates all earlier rows and bounds all rows. -/
theorem findRowGo_hit (labels : List String) (m : Nat) :
    ∀ (rows : List (List Cell)) (r idx : Nat) (best : Int) (high : Nat),
      r < rows.length →
      rowScore labels (rows.getD r []) = m →
      (∀ j, j < r → rowScore labels (rows.getD j []) < m) →
      high < m →
      (∀ row ∈ rows, rowScore labels row ≤ m) →
      findRowGo labels rows idx best high = ((idx + r : Nat) : Int) := by
  intro rows
  induction rows with
  | nil => intro r idx best high hr; exact absurd hr (Nat.not_lt_zero r)
  | cons row rest ih =>
    intro r idx best high hr hscore hprev hhigh hall
    cases r with
    | zero =>
      simp only [List.getD_cons_zero] at hscore
      rw [findRowGo, if_pos (by rw [hscore]; exact hhigh)]
      rw [hscore]
      rw [findRowGo_const labels rest _ _ _
        (fun rr hrr => hall rr (List.mem_cons_of_mem _ hrr))]
      simp
    | succ r' =>
      have h0 : rowScore labels row < m := by
        simpa using hprev 0 (Nat.succ_pos r')
      have hr' : r' < rest.length := by simpa using hr
      have hscore' : rowScore labels (rest.getD r' []) = m := by
        simpa using hscore
      have hprev' : ∀ j, j < r' → rowScore labels (rest.getD j []) < m := by
        intro j hj
        simpa using hprev (j + 1) (Nat.succ_lt_succ hj)
      have hall' : ∀ rr ∈ rest, rowScore labels rr ≤ m :=
        fun rr hrr => hall rr (List.mem_cons_of_mem _ hrr)
      rw [findRowGo]
      by_cases hb : high < rowScore labels row
      · rw [if_pos hb]
        rw [ih r' (idx + 1) ((idx : Int)) (rowScore labels row) hr' hscore' hprev' h0 hall']
        congr 1
        omega
      · rw [if_neg hb]
        rw [ih r' (idx + 1) best high hr' hscore' hprev' hhigh hall']
        congr 1
        omega

/-- The scan loop's result is either its initial accumulator or a valid
index of one of the scanned rows. -/
theorem findRowGo_range (labels : List String) :
    ∀ (rows : List (List Cell)) (idx : Nat) (best : Int) (high : Nat),
      (best = -1 ∨ (0 ≤ best ∧ best < (idx : Int))) →
      (findRowGo labels rows idx best high = -1 ∨
        (0 ≤ findRowGo labels rows idx best high ∧
          findRowGo labels rows idx best high < ((idx + rows.length : Nat) : Int))) := by
  intro rows
  induction rows with
  | nil =>
    intro idx best high hb
    rcases hb with hb | hb
    · exact Or.inl hb
    · exact Or.inr ⟨hb.1, by simpa using lt_of_lt_of_le hb.2 (by simp)⟩
  | cons row rest ih =>
    intro idx best high hb
    rw [findRowGo]
    by_cases hc : high < rowScore labels row
    · rw [if_pos hc]
      have := ih (idx + 1) ((idx : Int)) (rowScore labels row)
        (Or.inr ⟨by omega, by omega⟩)
      rcases this with h | h
      · exact Or.inl h
      · refine Or.inr ⟨h.1, lt_of_lt_of_le h.2 ?_⟩
        simp only [List.length_cons]
        omega
    · rw [if_neg hc]
      have := ih (idx + 1) best high
        (by
          rcases hb with hb | hb
          · exact Or.inl hb
          · exact Or.inr ⟨hb.1, by omega⟩)
      rcases this with h | h
      · exact Or.inl h
      · refine Or.inr ⟨h.1, lt_of_lt_of_le h.2 ?_⟩
        simp only [List.length_cons]
        omega

/-- `find_row_with_most_label_matches` returns `-1` or a valid row index. -/
theorem find_row_range (df : Grid) (labels : List String) :
    find_row_with_most_label_matches df labels = -1 ∨
      (0 ≤ find_row_with_most_label_matches df labels ∧
        find_row_with_most_label_matches df labels < (df.length : Int)) := by
  have := findRowGo_range labels df 0 NO_BEST_MATCH_ROW 0 (Or.inl rfl)
  simpa [find_row_with_most_label_matches] using this

/-- C1 (counterexample): in the grid `[["designatorx"], ["designator"]]` with
label list `["Designator"]`, row 1 contains every label as an exact
(post-normalization) match, yet the Table Locator returns row 0 (the earlier
row substring-matches the label and ties keep the first row found), and
`find_unmatched_labels_in_best_row` returns `["Designator"]`, not `[]`. -/
theorem claim1_counterexample :
    (normalize_label_text "Designator" = normalize_label_text "designator") ∧
    find_row_with_most_label_matches
      [[Cell.cstr "designatorx"], [Cell.cstr "designator"]] ["Designator"] = 0 ∧
    find_unmatched_labels_in_best_row
      [[Cell.cstr "designatorx"], [Cell.cstr "designator"]] ["Designator"] =
      ["Designator"] := by
  refine ⟨by decide, by decide, by decide⟩

/-- C1 (amended): for every grid `G`, non-empty label list `L` and row index
`r`, if row `r` of `G` contains every label in `L` as an exact
(post-normalization) match against a string cell, and every earlier row
substring-matches strictly fewer than `|L|` of the labels, then the Table
Locator returns `r` and `find_unmatched_labels_in_best_row` returns the
empty list; row scoring counts each label at most once per row via
normalized substring matching, and ties between equally-scoring rows keep
the first row found (which is why the claim's original form, without the
condition on earlier rows, fails). -/
theorem claim1_amended (df : Grid) (labels : List String) (r : Nat)
    (hr : r < df.length)
    (hex : ∀ l ∈ labels, ∃ s, Cell.cstr s ∈ df.getD r [] ∧
      normalize_label_text l = normalize_label_text s)
    (hfewer : ∀ j, j < r → rowScore labels (df.getD j []) < labels.length)
    (hne : labels ≠ []) :
    find_row_with_most_label_matches df labels = (r : Int) ∧
    find_unmatched_labels_in_best_row df labels = [] := by
  have hm : rowScore labels (df.getD r []) = labels.length :=
    rowScore_of_exact labels _ hex
  have hpos : 0 < labels.length := List.length_pos.mpr hne
  have hfind : find_row_with_most_label_matches df labels = ((0 + r : Nat) : Int) :=
    findRowGo_hit labels labels.length df r 0 NO_BEST_MATCH_ROW 0 hr hm hfewer hpos
      (fun row _ => rowScore_le labels row)
  simp only [Nat.zero_add] at hfind
  refine ⟨hfind, ?_⟩
  unfold find_unmatched_labels_in_best_row
  rw [hfind]
  rw [if_neg (by unfold NO_BEST_MATCH_ROW; omega)]
  simp only [Int.toNat_natCast]
  rw [List.filter_eq_nil_iff]
  intro l hl
  rcases hex l hl with ⟨s, hsmem, hnorm⟩
  simp only [decide_eq_true_eq, Decidable.not_not]
  refine List.any_eq_true.mpr ⟨normalize_label_text s, ?_, by simp [hnorm]⟩
  exact List.mem_map.mpr ⟨s, List.mem_map.mpr ⟨Cell.cstr s, hsmem, rfl⟩, rfl⟩

/-- C1 (witness): the amended theorem applied to the concrete grid
`[["note"], ["designator"]]` and label list `["Designator"]`. -/
theorem claim1_witness :
    (1 < ([[Cell.cstr "note"], [Cell.cstr "designator"]] : Grid).length) ∧
    find_row_with_most_label_matches
      [[Cell.cstr "note"], [Cell.cstr "designator"]] ["Designator"] = (1 : Int) ∧
    find_unmatched_labels_in_best_row
      [[Cell.cstr "note"], [Cell.cstr "designator"]] ["Designator"] = [] := by
  refine ⟨by decide, claim1_amended _ _ 1 (by decide) ?_ ?_ (by decide)⟩
  · intro l hl
    refine ⟨"designator", by decide, ?_⟩
    have : l = "Designator" := by
      simpa using hl
    rw [this]
    decide
  · intro j hj
    have : j = 0 := by omega
    rw [this]
    decide

/-- C2 (confirmed): `extract_header` fails exactly when the best-matching row
is missing or is the very first row (zero metadata rows above it), and
otherwise returns the rows strictly above the best-matching row;
`extract_table` fails exactly when the best-matching row is missing or the
table block consists of the header row alone (no data rows), and otherwise
returns the rows from the best-matching row onward, header inclusive. -/
theorem claim2_extract (df : Grid) (labels : List String) :
    ((∃ e, extract_header df labels = .error e) ↔
      (find_row_with_most_label_matches df labels = NO_BEST_MATCH_ROW ∨
        find_row_with_most_label_matches df labels = 0)) ∧
    (0 < find_row_with_most_label_matches df labels →
      extract_header df labels =
        .ok (df.take (find_row_with_most_label_matches df labels).toNat)) ∧
    ((∃ e, extract_table df labels = .error e) ↔
      (find_row_with_most_label_matches df labels = NO_BEST_MATCH_ROW ∨
        (0 ≤ find_row_with_most_label_matches df labels ∧
          (df.drop (find_row_with_most_label_matches df labels).toNat).length = 1))) ∧
    ((0 ≤ find_row_with_most_label_matches df labels ∧
        1 < (df.drop (find_row_with_most_label_matches df labels).toNat).length) →
      extract_table df labels =
        .ok (df.drop (find_row_with_most_label_matches df labels).toNat)) := by
  have hrange := find_row_range df labels
  set r := find_row_with_most_label_matches df labels with hrdef
  unfold extract_header extract_table
  rw [← hrdef]
  unfold NO_BEST_MATCH_ROW
  rcases hrange with hneg | ⟨hge, hlt⟩
  · rw [hneg]
    norm_num
  · have hlen : r.toNat < df.length := by omega
    by_cases h0 : r = 0
    · rw [h0]
      rw [if_pos (by omega)]
      rw [if_neg (by omega)]
      simp only [Int.toNat_zero, List.drop_zero]
      refine ⟨iff_of_true ⟨_, rfl⟩ (Or.inr trivial), fun hcon => absurd hcon (by omega), ?_, ?_⟩
      · by_cases h1 : df.length ≤ 1
        · rw [if_pos h1]
          exact iff_of_true ⟨_, rfl⟩ (Or.inr ⟨le_refl 0, by omega⟩)
        · rw [if_neg h1]
          refine iff_of_false ?_ ?_
          · rintro ⟨e, he⟩; exact absurd he (by simp)
          · intro hcon
            rcases hcon with hcon | ⟨_, hcon⟩
            · omega
            · omega
      · intro ⟨_, hgt⟩
        rw [if_neg (by omega)]
    · have hpos : 0 < r := by omega
      rw [if_neg (by omega)]
      have htake : df.take r.toNat ≠ [] := by
        rw [Ne, List.take_eq_nil_iff]
        push_neg
        constructor
        · omega
        · intro hnil; rw [hnil] at hlen; simp at hlen
      rw [if_neg htake]
      rw [if_neg (by omega)]
      have hdrop : (df.drop r.toNat).length = df.length - r.toNat := by
        simp
      refine ⟨?_, fun _ => rfl, ?_, ?_⟩
      · constructor
        · rintro ⟨e, he⟩; exact absurd he (by simp)
        · intro hcon
          rcases hcon with hcon | hcon
          · omega
          · omega
      · by_cases h1 : (df.drop r.toNat).length ≤ 1
        · rw [if_pos h1]
          constructor
          · intro _
            refine Or.inr ⟨by omega, ?_⟩
            omega
          · intro _; exact ⟨_, rfl⟩
        · rw [if_neg h1]
          constructor
          · rintro ⟨e, he⟩; exact absurd he (by simp)
          · intro hcon
            rcases hcon with hcon | hcon
            · omega
            · omega
      · intro ⟨_, hgt⟩
        rw [if_neg (by omega)]

/-- C2 (witness): the extraction theorem applied to a concrete grid whose
header row is row 1, with one metadata row above and one data row below. -/
theorem claim2_witness :
    extract_header [[Cell.cstr "x"], [Cell.cstr "designator"], [Cell.cstr "val"]]
      ["Designator"] = .ok [[Cell.cstr "x"]] ∧
    extract_table [[Cell.cstr "x"], [Cell.cstr "designator"], [Cell.cstr "val"]]
      ["Designator"] = .ok [[Cell.cstr "designator"], [Cell.cstr "val"]] := by
  constructor
  · rw [(claim2_extract [[Cell.cstr "x"], [Cell.cstr "designator"], [Cell.cstr "val"]]
      ["Designator"]).2.1 (by decide)]
    decide
  · rw [(claim2_extract [[Cell.cstr "x"], [Cell.cstr "designator"], [Cell.cstr "val"]]
      ["Designator"]).2.2.2 (by decide)]
    decide

/-- C9 (code bug): a sheet whose first row holds all four version-3
identifiers is recognised by `has_all_labels_in_a_row`, yet `is_v3_bom`
cannot return `true` for it: its loop body calls
`common.has_all_identifiers_in_single_row`, a name `_common.py` does not
define, so any non-empty sheet list raises `AttributeError`; only the empty
sheet list returns `False`. -/
theorem claim9_code_bug :
    has_all_labels_in_a_row "Sheet1"
      [[Cell.cstr "Classification", Cell.cstr "Designator",
        Cell.cstr "Manufacturer", Cell.cstr "Manufacturer P/N"]]
      REQUIRED_V3_BOM_IDENTIFIERS = true ∧
    is_v3_bom [("Sheet1",
      [[Cell.cstr "Classification", Cell.cstr "Designator",
        Cell.cstr "Manufacturer", Cell.cstr "Manufacturer P/N"]])] =
      .error .attributeError ∧
    is_v3_bom [] = .ok false := by
  refine ⟨by decide, rfl, rfl⟩

/-! ## Properties of the duplicate-scan loop -/

/-- An item already seen that occurs in the list lands in the duplicate
list. -/
theorem findDups_mem_of_mem_seen (x : String) :
    ∀ (l seen : List String), x ∈ seen → x ∈ l → x ∈ findDups seen l := by
  intro l
  induction l with
  | nil => intro seen _ hx; exact absurd hx (List.not_mem_nil x)
  | cons y ys ih =>
    intro seen hseen hx
    rw [findDups]
    by_cases hy : y ∈ seen
    · rw [if_pos hy]
      rcases List.mem_cons.mp hx with rfl | hx'
      · exact List.mem_cons_self _ _
      · exact List.mem_cons_of_mem _ (ih seen hseen hx')
    · rw [if_neg hy]
      rcases List.mem_cons.mp hx with rfl | hx'
      · exact absurd hseen hy
      · exact ih (y :: seen) (List.mem_cons_of_mem _ hseen) hx'

/-- An item occurring at least twice lands in the duplicate list. -/
theorem findDups_mem_of_two (x : String) :
    ∀ (l seen : List String), 2 ≤ l.count x → x ∈ findDups seen l := by
  intro l
  induction l with
  | nil => intro seen h; simp at h
  | cons y ys ih =>
    intro seen h
    rw [findDups]
    by_cases hxy : y = x
    · subst hxy
      have hcnt : 1 ≤ ys.count y := by
        rw [List.count_cons_self] at h
        omega
      have hmem : y ∈ ys := List.count_pos_iff_mem.mp (by omega)
      by_cases hy : y ∈ seen
      · rw [if_pos hy]
        exact List.mem_cons_self _ _
      · rw [if_neg hy]
        exact findDups_mem_of_mem_seen y ys (y :: seen) (List.mem_cons_self _ _) hmem
    · have hcnt : 2 ≤ ys.count x := by
        rw [List.count_cons_of_ne (fun hc => hxy hc.symm)] at h
        exact h
      by_cases hy : y ∈ seen
      · rw [if_pos hy]
        exact List.mem_cons_of_mem _ (ih seen hcnt)
      · rw [if_neg hy]
        exact ih (y :: seen) hcnt

/-- A duplicate-free list disjoint from the seen set produces no
duplicates. -/
theorem findDups_eq_nil (l : List String) :
    ∀ (seen : List String), l.Nodup → (∀ x ∈ l, x ∉ seen) →
      findDups seen l = [] := by
  induction l with
  | nil => intro seen _ _; rfl
  | cons y ys ih =>
    intro seen hnd hdisj
    rw [findDups, if_neg (hdisj y (List.mem_cons_self _ _))]
    refine ih (y :: seen) (List.nodup_cons.mp hnd).2 ?_
    intro x hx
    rw [List.mem_cons]
    push_neg
    exact ⟨fun hc => (List.nodup_cons.mp hnd).1 (hc ▸ hx),
      hdisj x (List.mem_cons_of_mem _ hx)⟩

/-- Two rows contributing the same designator token force
`check_duplicate_ref_des` to abort with that token listed. -/
theorem check_dup_abort_of_shared (headers : List String) (di : Nat)
    (v : String) (pre mid post : List (List Cell)) (r1 r2 : List Cell)
    (hcol : designatorCols headers = [di])
    (h1 : v ∈ rowTokens di r1) (h2 : v ∈ rowTokens di r2) :
    ∃ dups, check_duplicate_ref_des headers
      (pre ++ r1 :: (mid ++ r2 :: post)) = .aborted dups ∧ v ∈ dups := by
  have hcount : 2 ≤ ((pre ++ r1 :: (mid ++ r2 :: post)).flatMap (rowTokens di)).count v := by
    simp only [List.flatMap_append, List.flatMap_cons, List.count_append]
    have c1 : 1 ≤ (rowTokens di r1).count v := List.count_pos_iff_mem.mpr h1
    have c2 : 1 ≤ (rowTokens di r2).count v := List.count_pos_iff_mem.mpr h2
    omega
  have hmem := findDups_mem_of_two v _ [] hcount
  unfold check_duplicate_ref_des
  rw [hcol]
  dsimp only
  rcases hd : findDups [] ((pre ++ r1 :: (mid ++ r2 :: post)).flatMap (rowTokens di)) with
    _ | ⟨d, ds⟩
  · rw [hd] at hmem
    exact absurd hmem (List.not_mem_nil v)
  · rw [hd] at hmem
    exact ⟨d :: ds, rfl, hmem⟩

/-- C8 (confirmed): with a single `Designator` column, whenever two distinct
records both list a designator value (for instance `"C5"`), the
duplicate-designator check aborts and its reported duplicate list names that
value; and a table whose designator tokens are pairwise distinct across all
records passes the check. -/
theorem claim8_duplicate_ref_des (headers : List String) (di : Nat)
    (rows : List (List Cell)) (hcol : designatorCols headers = [di]) :
    (∀ (v : String) (pre mid post : List (List Cell)) (r1 r2 : List Cell),
      rows = pre ++ r1 :: (mid ++ r2 :: post) →
      v ∈ rowTokens di r1 → v ∈ rowTokens di r2 →
      ∃ dups, check_duplicate_ref_des headers rows = .aborted dups ∧ v ∈ dups) ∧
    ((rows.flatMap (rowTokens di)).Nodup →
      check_duplicate_ref_des headers rows = .passed) := by
  constructor
  · intro v pre mid post r1 r2 hsplit h1 h2
    subst hsplit
    exact check_dup_abort_of_shared headers di v pre mid post r1 r2 hcol h1 h2
  · intro hnd
    unfold check_duplicate_ref_des
    rw [hcol]
    dsimp only
    rw [findDups_eq_nil _ [] hnd (fun x _ => List.not_mem_nil x)]

/-- C8 (witness): the check aborts naming `"C5"` on a concrete two-record
table sharing designator `"C5"`, and passes on a table with distinct
designators. -/
theorem claim8_witness :
    (∃ dups, check_duplicate_ref_des ["Designator"]
      [[Cell.cstr "C5"], [Cell.cstr "C5,C7"]] = .aborted dups ∧ "C5" ∈ dups) ∧
    check_duplicate_ref_des ["Designator"]
      [[Cell.cstr "C5"], [Cell.cstr "C6,C7"]] = .passed := by
  constructor
  · exact (claim8_duplicate_ref_des ["Designator"] 0
      [[Cell.cstr "C5"], [Cell.cstr "C5,C7"]] (by decide)).1 "C5"
      [] [] [] [Cell.cstr "C5"] [Cell.cstr "C5,C7"] (by decide) (by decide) (by decide)
  · exact (claim8_duplicate_ref_des ["Designator"] 0
      [[Cell.cstr "C5"], [Cell.cstr "C6,C7"]] (by decide)).2 (by decide)

/-- C10 (counterexample): a table with one empty-string designator cell and
one missing (NaN) designator cell has two records with an "empty or missing"
designator, yet the check passes: `str()` renders the empty cell as `""` and
the missing cell as `"nan"`, two different tokens, so no duplicate is
found and the run is not aborted. -/
theorem claim10_counterexample :
    check_duplicate_ref_des ["Designator"] [[Cell.cstr ""], [Cell.cnan]] =
      .passed := by
  decide

/-- C10 (amended): with a single `Designator` column, any two records whose
designator cells are both empty strings are reported as duplicates and the
run aborts — each cell is converted to a string and split on `,`/`:`/`;`
without discarding empty tokens, so two empty cells contribute the token
`""` twice; likewise two missing (NaN) cells both render as `"nan"` and are
flagged.  (A mix of one empty and one missing cell is not flagged, which is
what the original claim missed.) -/
theorem claim10_amended (headers : List String) (di : Nat)
    (pre mid post : List (List Cell)) (r1 r2 : List Cell)
    (hcol : designatorCols headers = [di]) :
    (r1.getD di Cell.cnan = Cell.cstr "" → r2.getD di Cell.cnan = Cell.cstr "" →
      ∃ dups, check_duplicate_ref_des headers
        (pre ++ r1 :: (mid ++ r2 :: post)) = .aborted dups ∧ "" ∈ dups) ∧
    (r1.getD di Cell.cnan = Cell.cnan → r2.getD di Cell.cnan = Cell.cnan →
      ∃ dups, check_duplicate_ref_des headers
        (pre ++ r1 :: (mid ++ r2 :: post)) = .aborted dups ∧ "nan" ∈ dups) := by
  constructor
  · intro h1 h2
    refine check_dup_abort_of_shared headers di "" pre mid post r1 r2 hcol ?_ ?_
    · unfold rowTokens
      rw [h1]
      decide
    · unfold rowTokens
      rw [h2]
      decide
  · intro h1 h2
    refine check_dup_abort_of_shared headers di "nan" pre mid post r1 r2 hcol ?_ ?_
    · unfold rowTokens
      rw [h1]
      decide
    · unfold rowTokens
      rw [h2]
      decide

/-- C10 (witness): the amended theorem applied to a table of two
empty-designator records, and to a table of two missing-designator
records. -/
theorem claim10_witness :
    (∃ dups, check_duplicate_ref_des ["Designator"]
      [[Cell.cstr ""], [Cell.cstr ""]] = .aborted dups ∧ "" ∈ dups) ∧
    (∃ dups, check_duplicate_ref_des ["Designator"]
      [[Cell.cnan], [Cell.cnan]] = .aborted dups ∧ "nan" ∈ dups) := by
  constructor
  · exact (claim10_amended ["Designator"] 0 [] [] [] [Cell.cstr ""] [Cell.cstr ""]
      (by decide)).1 (by decide) (by decide)
  · exact (claim10_amended ["Designator"] 0 [] [] [] [Cell.cnan] [Cell.cnan]
      (by decide)).2 (by decide) (by decide)

/-! ## Properties of the matcher loops -/

/-- The Levenshtein loop keeps its accumulator when no remaining reference
beats the current minimum distance. -/
theorem levGo_const (test : String) :
    ∀ (refs : List String) (best : Option String) (minD : ℕ∞),
      (∀ q ∈ refs, minD ≤ (levDistance test q : ℕ∞)) →
      levenshteinGo test refs best minD = best := by
  intro refs
  induction refs with
  | nil => intro best minD _; rfl
  | cons q rest ih =>
    intro best minD hall
    rw [levenshteinGo_cons, if_neg (not_lt.mpr (hall q (List.mem_cons_self _ _)))]
    exact ih best minD (fun p hp => hall p (List.mem_cons_of_mem _ hp))

/-- When some remaining reference beats the current minimum, the Levenshtein
loop returns the first reference attaining the least distance. -/
theorem levGo_progress (test : String) :
    ∀ (refs : List String) (best : Option String) (minD : ℕ∞),
      (∃ q ∈ refs, (levDistance test q : ℕ∞) < minD) →
      ∃ pre r post, levenshteinGo test refs best minD = some r ∧
        refs = pre ++ r :: post ∧
        (levDistance test r : ℕ∞) < minD ∧
        (∀ q ∈ refs, levDistance test r ≤ levDistance test q) ∧
        (∀ p ∈ pre, levDistance test r < levDistance test p) := by
  intro refs
  induction refs with
  | nil => intro best minD h; exact absurd h (by simp)
  | cons q rest ih =>
    intro best minD hex
    by_cases hq : (levDistance test q : ℕ∞) < minD
    · rw [levenshteinGo_cons, if_pos hq]
      by_cases hrest : ∃ p ∈ rest, (levDistance test p : ℕ∞) < (levDistance test q : ℕ∞)
      · rcases ih (some q) (levDistance test q) hrest with
          ⟨pre, r, post, hres, hsplit, hlt, hallr, hpre⟩
        refine ⟨q :: pre, r, post, hres, by rw [hsplit]; simp, lt_trans hlt hq, ?_, ?_⟩
        · intro p hp
          rcases List.mem_cons.mp hp with rfl | hp'
          · exact le_of_lt (ENat.coe_lt_coe.mp hlt)
          · exact hallr p hp'
        · intro p hp
          rcases List.mem_cons.mp hp with rfl | hp'
          · exact ENat.coe_lt_coe.mp hlt
          · exact hpre p hp'
      · push_neg at hrest
        refine ⟨[], q, rest, ?_, rfl, hq, ?_, by simp⟩
        · exact levGo_const test rest (some q) (levDistance test q) hrest
        · intro p hp
          rcases List.mem_cons.mp hp with rfl | hp'
          · exact le_refl _
          · exact ENat.coe_le_coe.mp (hrest p hp')
    · rw [levenshteinGo_cons, if_neg hq]
      have hex' : ∃ p ∈ rest, (levDistance test p : ℕ∞) < minD := by
        rcases hex with ⟨p, hp, hplt⟩
        rcases List.mem_cons.mp hp with rfl | hp'
        · exact absurd hplt hq
        · exact ⟨p, hp', hplt⟩
      rcases ih best minD hex' with ⟨pre, r, post, hres, hsplit, hlt, hallr, hpre⟩
      have hrq : levDistance test r < levDistance test q := by
        have : (levDistance test r : ℕ∞) < (levDistance test q : ℕ∞) :=
          lt_of_lt_of_le hlt (not_lt.mp hq)
        exact ENat.coe_lt_coe.mp this
      refine ⟨q :: pre, r, post, hres, by rw [hsplit]; simp, hlt, ?_, ?_⟩
      · intro p hp
        rcases List.mem_cons.mp hp with rfl | hp'
        · exact le_of_lt hrq
        · exact hallr p hp'
      · intro p hp
        rcases List.mem_cons.mp hp with rfl | hp'
        · exact hrq
        · exact hpre p hp'

/-- A positive Jaccard similarity forces a non-empty candidate character
set. -/
theorem charSet_nonempty_of_jaccard_pos (test q : String)
    (h : 0 < jaccardSim test q) : charSet test ≠ [] := by
  intro hc
  unfold jaccardSim interCard at h
  rw [hc] at h
  simp at h

/-- The union denominator never vanishes for a candidate with a non-empty
character set. -/
theorem jaccard_union_ne_zero (test q : String) (h : charSet test ≠ []) :
    unionCard (charSet test) (charSet q) ≠ 0 := by
  unfold unionCard
  have : 0 < (charSet test).length := List.length_pos.mpr h
  omega

/-- The Jaccard loop keeps its accumulator when no remaining reference beats
the current best similarity. -/
theorem jacGo_const (test : String) (hne : charSet test ≠ []) :
    ∀ (refs : List String) (best : Option String) (maxS : ℚ),
      (∀ q ∈ refs, jaccardSim test q ≤ maxS) →
      jaccardGo test refs best maxS = .ok best := by
  intro refs
  induction refs with
  | nil => intro best maxS _; rfl
  | cons q rest ih =>
    intro best maxS hall
    rw [jaccardGo_cons, if_neg (jaccard_union_ne_zero test q hne),
      if_neg (not_lt.mpr (hall q (List.mem_cons_self _ _)))]
    exact ih best maxS (fun p hp => hall p (List.mem_cons_of_mem _ hp))

/-- When some remaining reference beats the current best similarity, the
Jaccard loop returns the first reference attaining the greatest
similarity. -/
theorem jacGo_progress (test : String) (hne : charSet test ≠ []) :
    ∀ (refs : List String) (best : Option String) (maxS : ℚ),
      (∃ q ∈ refs, maxS < jaccardSim test q) →
      ∃ pre r post, jaccardGo test refs best maxS = .ok (some r) ∧
        refs = pre ++ r :: post ∧
        maxS < jaccardSim test r ∧
        (∀ q ∈ refs, jaccardSim test q ≤ jaccardSim test r) ∧
        (∀ p ∈ pre, jaccardSim test p < jaccardSim test r) := by
  intro refs
  induction refs with
  | nil => intro best maxS h; exact absurd h (by simp)
  | cons q rest ih =>
    intro best maxS hex
    by_cases hq : maxS < jaccardSim test q
    · rw [jaccardGo_cons, if_neg (jaccard_union_ne_zero test q hne), if_pos hq]
      by_cases hrest : ∃ p ∈ rest, jaccardSim test q < jaccardSim test p
      · rcases ih (some q) (jaccardSim test q) hrest with
          ⟨pre, r, post, hres, hsplit, hlt, hallr, hpre⟩
        refine ⟨q :: pre, r, post, hres, by rw [hsplit]; simp, lt_trans hq hlt, ?_, ?_⟩
        · intro p hp
          rcases List.mem_cons.mp hp with rfl | hp'
          · exact le_of_lt hlt
          · exact hallr p hp'
        · intro p hp
          rcases List.mem_cons.mp hp with rfl | hp'
          · exact hlt
          · exact hpre p hp'
      · push_neg at hrest
        refine ⟨[], q, rest, ?_, rfl, hq, ?_, by simp⟩
        · exact jacGo_const test hne rest (some q) (jaccardSim test q) hrest
        · intro p hp
          rcases List.mem_cons.mp hp with rfl | hp'
          · exact le_refl _
          · exact hrest p hp'
    · rw [jaccardGo_cons, if_neg (jaccard_union_ne_zero test q hne), if_neg hq]
      have hex' : ∃ p ∈ rest, maxS < jaccardSim test p := by
        rcases hex with ⟨p, hp, hplt⟩
        rcases List.mem_cons.mp hp with rfl | hp'
        · exact absurd hplt hq
        · exact ⟨p, hp', hplt⟩
      rcases ih best maxS hex' with ⟨pre, r, post, hres, hsplit, hlt, hallr, hpre⟩
      have hrq : jaccardSim test q < jaccardSim test r :=
        lt_of_le_of_lt (not_lt.mp hq) hlt
      refine ⟨q :: pre, r, post, hres, by rw [hsplit]; simp, hlt, ?_, ?_⟩
      · intro p hp
        rcases List.mem_cons.mp hp with rfl | hp'
        · exact le_of_lt hrq
        · exact hallr p hp'
      · intro p hp
        rcases List.mem_cons.mp hp with rfl | hp'
        · exact hrq
        · exact hpre p hp'

/-- C3 (counterexample): for candidate `"a"` and reference list `["b"]`, the
set-overlap matcher does not return the best-matching reference `"b"`: every
similarity is zero, the `similarity > max_similarity` update never fires
(`max_similarity` starts at 0), and the function returns `None` instead of a
reference string. -/
theorem claim3_counterexample :
    find_best_match_jaccard "a" ["b"] = .ok none ∧
    (Except.ok (some "b") : Except PyErr (Option String)) ≠ .ok none := by
  refine ⟨by decide, by decide⟩

/-- C3 (amended): for every candidate and non-empty reference list, the
edit-distance matcher returns the first reference of minimal Levenshtein
distance; the set-overlap matcher returns the first reference of maximal
Jaccard character-set similarity provided some reference has positive
similarity — when every similarity is zero it returns `None` rather than a
reference string (the correction the counterexample forces). -/
theorem claim3_amended (test : String) (refs : List String) :
    (refs ≠ [] →
      ∃ pre r post, find_best_match_levenshtein test refs = some r ∧
        refs = pre ++ r :: post ∧
        (∀ q ∈ refs, levDistance test r ≤ levDistance test q) ∧
        (∀ p ∈ pre, levDistance test r < levDistance test p)) ∧
    ((∃ q ∈ refs, 0 < jaccardSim test q) →
      ∃ pre r post, find_best_match_jaccard test refs = .ok (some r) ∧
        refs = pre ++ r :: post ∧
        (∀ q ∈ refs, jaccardSim test q ≤ jaccardSim test r) ∧
        (∀ p ∈ pre, jaccardSim test p < jaccardSim test r)) := by
  constructor
  · intro hne
    have hex : ∃ q ∈ refs, (levDistance test q : ℕ∞) < ⊤ := by
      rcases List.exists_mem_of_ne_nil refs hne with ⟨q, hq⟩
      exact ⟨q, hq, ENat.coe_lt_top _⟩
    rcases levGo_progress test refs none ⊤ hex with
      ⟨pre, r, post, hres, hsplit, _, hall, hpre⟩
    exact ⟨pre, r, post, hres, hsplit, hall, hpre⟩
  · intro hex
    have hne : charSet test ≠ [] := by
      rcases hex with ⟨q, _, hq⟩
      exact charSet_nonempty_of_jaccard_pos test q hq
    rcases jacGo_progress test hne refs none 0 hex with
      ⟨pre, r, post, hres, hsplit, _, hall, hpre⟩
    exact ⟨pre, r, post, hres, hsplit, hall, hpre⟩

/-- C3 (witness): the amended theorem applied to candidate `"apple"` and
references `["banana", "pineapple"]` (both matchers pick `"pineapple"`,
matching the source's doc-comment example). -/
theorem claim3_witness :
    ((["banana", "pineapple"] : List String) ≠ []) ∧
    (0 < jaccardSim "apple" "pineapple") ∧
    (∃ pre r post, find_best_match_levenshtein "apple" ["banana", "pineapple"] = some r ∧
      ["banana", "pineapple"] = pre ++ r :: post ∧
      (∀ q ∈ (["banana", "pineapple"] : List String),
        levDistance "apple" r ≤ levDistance "apple" q) ∧
      (∀ p ∈ pre, levDistance "apple" r < levDistance "apple" p)) ∧
    (∃ pre r post, find_best_match_jaccard "apple" ["banana", "pineapple"] = .ok (some r) ∧
      ["banana", "pineapple"] = pre ++ r :: post ∧
      (∀ q ∈ (["banana", "pineapple"] : List String),
        jaccardSim "apple" q ≤ jaccardSim "apple" r) ∧
      (∀ p ∈ pre, jaccardSim "apple" p < jaccardSim "apple" r)) := by
  refine ⟨by decide, by decide, ?_, ?_⟩
  · exact (claim3_amended "apple" ["banana", "pineapple"]).1 (by decide)
  · exact (claim3_amended "apple" ["banana", "pineapple"]).2
      ⟨"pineapple", by decide, by decide⟩

/-! ## Properties of splitting and joining designator strings -/

/-- The split worker never returns an empty list of pieces. -/
theorem splitChars_ne_nil (p : Char → Bool) : ∀ l : List Char, splitChars p l ≠ [] := by
  intro l
  cases l with
  | nil => simp [splitChars]
  | cons c cs =>
    rw [splitChars]
    rcases h : splitChars p cs with _ | ⟨g, gs⟩
    · simp
    · dsimp only
      by_cases hc : p c
      · rw [if_pos hc]; simp
      · rw [if_neg hc]; simp

/-- Splitting a separator-free character list yields the single piece. -/
theorem splitChars_sepFree (p : Char → Bool) :
    ∀ l : List Char, (∀ c ∈ l, p c = false) → splitChars p l = [l] := by
  intro l
  induction l with
  | nil => intro _; rfl
  | cons c cs ih =>
    intro h
    rw [splitChars, ih (fun d hd => h d (List.mem_cons_of_mem _ hd))]
    dsimp only
    rw [if_neg (by simp [h c (List.mem_cons_self _ _)])]

/-- Splitting at the first separator detaches the separator-free prefix. -/
theorem splitChars_append (p : Char → Bool) (sep : Char) (hp : p sep = true) :
    ∀ (l₁ l₂ : List Char), (∀ c ∈ l₁, p c = false) →
      splitChars p (l₁ ++ sep :: l₂) = l₁ :: splitChars p l₂ := by
  intro l₁
  induction l₁ with
  | nil =>
    intro l₂ _
    rw [List.nil_append, splitChars]
    rcases h : splitChars p l₂ with _ | ⟨g, gs⟩
    · exact absurd h (splitChars_ne_nil p l₂)
    · dsimp only
      rw [if_pos hp]
  | cons c cs ih =>
    intro l₂ h
    rw [List.cons_append, splitChars, ih l₂ (fun d hd => h d (List.mem_cons_of_mem _ hd))]
    dsimp only
    rw [if_neg (by simp [h c (List.mem_cons_self _ _)])]

/-- Splitting undoes joining for a non-empty list of separator-free parts
(exactly the shape produced by Python's `sep.join` / `str.split(sep)`
round-trip on designator lists). -/
theorem pySplit_pyJoin (sep : Char) :
    ∀ ds : List String, ds ≠ [] → (∀ s ∈ ds, sep ∉ s.data) →
      pySplit (· = sep) (pyJoin sep ds) = ds := by
  intro ds
  induction ds with
  | nil => intro h _; exact absurd rfl h
  | cons d rest ih =>
    intro _ hfree
    cases rest with
    | nil =>
      show (splitChars (· = sep) d.data).map String.mk = [d]
      rw [splitChars_sepFree (· = sep) d.data ?_]
      · rfl
      · intro c hc
        simp only [decide_eq_false_iff_not]
        intro hcs
        exact hfree d (List.mem_cons_self _ _) (hcs ▸ hc)
    | cons d' rest' =>
      show (splitChars (· = sep) (pyJoin sep (d :: d' :: rest')).data).map String.mk
        = d :: d' :: rest'
      have hjoin : (pyJoin sep (d :: d' :: rest')).data =
          d.data ++ sep :: (pyJoin sep (d' :: rest')).data := by
        show (d ++ String.mk [sep] ++ pyJoin sep (d' :: rest')).data = _
        simp [String.data_append]
      rw [hjoin, splitChars_append (· = sep) sep (by simp) d.data
        (pyJoin sep (d' :: rest')).data ?_]
      · have := ih (by simp) (fun s hs => hfree s (List.mem_cons_of_mem _ hs))
        unfold pySplit at this
        simpa using this
      · intro c hc
        simp only [decide_eq_false_iff_not]
        intro hcs
        exact hfree d (List.mem_cons_self _ _) (hcs ▸ hc)

/-- The peel loop on an integral quantity `k + 2` with enough comma-free
designators: the first `k + 1` designators leave in unit-quantity copies, and
the final record keeps quantity `1` with the remaining designators. -/
theorem peelRow_int (rest : List PCell) :
    ∀ (k : ℕ) (ds : List String), k + 2 ≤ ds.length →
      (∀ s ∈ ds, ',' ∉ s.data) →
      peelRow ⟨((k + 2 : ℕ) : ℚ), pyJoin ',' ds, rest⟩ =
        (ds.take (k + 1)).map (fun d => ⟨1, d, rest⟩) ++
          [⟨1, pyJoin ',' (ds.drop (k + 1)), rest⟩] := by
  intro k
  induction k with
  | zero =>
    intro ds hlen hfree
    rcases ds with _ | ⟨d, ds'⟩
    · simp at hlen
    · have hne : d :: ds' ≠ [] := by simp
      rw [peelRow]
      rw [dif_pos ⟨by norm_num, by norm_num⟩]
      simp only [pySplit_pyJoin ',' (d :: ds') hne hfree]
      have hq1 : ((2 : ℕ) : ℚ) - 1 = ((1 : ℕ) : ℚ) := by norm_num
      simp only [List.headD_cons, List.tail_cons]
      rw [show ((0 + 2 : ℕ) : ℚ) - 1 = ((1 : ℕ) : ℚ) by norm_num]
      rw [peelRow]
      rw [dif_neg (by norm_num)]
      simp
  | succ k' ih =>
    intro ds hlen hfree
    rcases ds with _ | ⟨d, ds'⟩
    · simp at hlen
    · have hne : d :: ds' ≠ [] := by simp
      rw [peelRow]
      rw [dif_pos (And.intro
        (show (1 : ℚ) < ((k' + 1 + 2 : ℕ) : ℚ) from
          by exact_mod_cast (by omega : 1 < k' + 1 + 2))
        (show ((k' + 1 + 2 : ℕ) : ℚ).den = 1 from Rat.den_natCast _))]
      simp only [pySplit_pyJoin ',' (d :: ds') hne hfree]
      simp only [List.headD_cons, List.tail_cons]
      rw [show ((k' + 1 + 2 : ℕ) : ℚ) - 1 = ((k' + 2 : ℕ) : ℚ) by push_cast; ring]
      rw [ih ds' (by simpa using hlen) (fun s hs => hfree s (List.mem_cons_of_mem _ hs))]
      simp

/-- C5 (confirmed): for every record whose quantity is an integer `n ≥ 2`
(with at least `n` comma-free designators), the quantity/designator split
peels one designator off the front per step into a new record with quantity
1, decrementing the original's quantity and designator list, and stops at
quantity 1 — producing the first `n - 1` designators as unit-quantity records
followed by the original record with quantity 1 and the remaining
designators.  Records with quantity `< 2` or a non-integral quantity are
left intact.  In particular quantity 3 with designators `"R1,R2,R3"` yields
exactly three quantity-1 records carrying `"R1"`, `"R2"`, `"R3"`, in that
order. -/
theorem claim5_split (rest : List PCell) :
    (∀ (n : ℕ) (ds : List String), 2 ≤ n → n ≤ ds.length →
      (∀ s ∈ ds, ',' ∉ s.data) →
      split_multiple_quantity [⟨((n : ℕ) : ℚ), pyJoin ',' ds, rest⟩] =
        (ds.take (n - 1)).map (fun d => ⟨1, d, rest⟩) ++
          [⟨1, pyJoin ',' (ds.drop (n - 1)), rest⟩]) ∧
    (∀ (q : ℚ) (des : String), (q < 2 ∨ q.den ≠ 1) →
      split_multiple_quantity [⟨q, des, rest⟩] = [⟨q, des, rest⟩]) ∧
    split_multiple_quantity [⟨3, "R1,R2,R3", []⟩] =
      [⟨1, "R1", []⟩, ⟨1, "R2", []⟩, ⟨1, "R3", []⟩] := by
  refine ⟨?_, ?_, ?_⟩
  · intro n ds hn hlen hfree
    obtain ⟨k, rfl⟩ : ∃ k, n = k + 2 := ⟨n - 2, by omega⟩
    unfold split_multiple_quantity duplicate_row_for_multiple_quantity
    simp only [List.flatMap_cons, List.flatMap_nil, List.append_nil]
    rw [peelRow_int rest k ds hlen hfree]
    have hk : k + 2 - 1 = k + 1 := by omega
    rw [hk]
  · intro q des hq
    unfold split_multiple_quantity duplicate_row_for_multiple_quantity
    simp only [List.flatMap_cons, List.flatMap_nil, List.append_nil]
    rw [peelRow]
    rw [dif_neg ?_]
    rintro ⟨h1, h2⟩
    rcases hq with hq | hq
    · have hnum : (q.num : ℚ) = q := Rat.coe_int_num_of_den_eq_one h2
      have h1' : (1 : ℚ) < (q.num : ℚ) := by rw [hnum]; exact h1
      have h2' : (q.num : ℚ) < (2 : ℚ) := by rw [hnum]; exact hq
      have : (1 : ℤ) < q.num := by exact_mod_cast h1'
      have : q.num < (2 : ℤ) := by exact_mod_cast h2'
      omega
    · exact hq h2
  · unfold split_multiple_quantity duplicate_row_for_multiple_quantity
    simp only [List.flatMap_cons, List.flatMap_nil, List.append_nil]
    rw [show (⟨3, "R1,R2,R3", []⟩ : QRow) =
      ⟨((1 + 2 : ℕ) : ℚ), pyJoin ',' ["R1", "R2", "R3"], []⟩ by norm_num; rfl]
    rw [peelRow_int [] 1 ["R1", "R2", "R3"] (by decide) (by decide)]
    decide

/-- C5 (witness): the split theorem applied to a concrete record of quantity
2 with designators `"C1,C2"`. -/
theorem claim5_witness :
    (2 ≤ 2 ∧ 2 ≤ (["C1", "C2"] : List String).length) ∧
    split_multiple_quantity [⟨((2 : ℕ) : ℚ), pyJoin ',' ["C1", "C2"], []⟩] =
      [⟨1, "C1", []⟩, ⟨1, "C2", []⟩] := by
  constructor
  · exact ⟨le_refl 2, by decide⟩
  · rw [(claim5_split []).1 2 ["C1", "C2"] (le_refl 2) (by decide) (by decide)]
    decide

/-- The numeric value of a cell (`0` for non-numeric cells); used to state
properties of tables whose quantity cells are numeric. -/
def pcellNum (c : PCell) : ℚ :=
  match c with
  | .pn v => v
  | _ => 0

/-- The string value of a cell (`""` for non-string cells); used to state
properties of tables whose designator cells are strings. -/
def pcellStr (c : PCell) : String :=
  match c with
  | .ps s => s
  | _ => ""

/-- A record's declared quantity equals the length of its comma-separated
designator list. -/
def rowQtyMatches (qi di : Nat) (row : List PCell) : Prop :=
  pcellNum (row.getD qi PCell.pnan) =
    (((pySplit (· = ',') (pcellStr (row.getD di PCell.pnan))).length : ℕ) : ℚ)

instance (qi di : Nat) (row : List PCell) : Decidable (rowQtyMatches qi di row) := by
  unfold rowQtyMatches
  infer_instance

/-- On a numeric quantity cell, the source's `!=` comparison with the
designator count is exactly the negation of `rowQtyMatches`. -/
theorem neNat_eq_false_iff (qi di : Nat) (row : List PCell) (v : ℚ) (s : String)
    (hv : row.getD qi PCell.pnan = PCell.pn v)
    (hs : row.getD di PCell.pnan = PCell.ps s) :
    ((row.getD qi PCell.pnan).neNat
        (pySplit (· = ',') s).length = false ↔ rowQtyMatches qi di row) := by
  unfold rowQtyMatches
  rw [hv, hs]
  unfold PCell.neNat pcellNum pcellStr
  rw [Rat.mkRat_one]
  simp

/-- The row loop of the quantity check: it passes exactly when every record
matches, and otherwise reports the first mismatching record's leading
cell. -/
theorem qtyChkGo_spec (qi di : Nat) :
    ∀ rows : List (List PCell),
      (∀ row ∈ rows, ∃ s, row.getD di PCell.pnan = PCell.ps s) →
      (∀ row ∈ rows, ∃ v : ℚ, row.getD qi PCell.pnan = PCell.pn v) →
      (qtyChkGo qi di rows = .passed ↔ ∀ row ∈ rows, rowQtyMatches qi di row) ∧
      ((∃ row ∈ rows, ¬ rowQtyMatches qi di row) →
        ∃ row ∈ rows, ¬ rowQtyMatches qi di row ∧
          qtyChkGo qi di rows = .failure (row.getD 0 PCell.pnan)) := by
  intro rows
  induction rows with
  | nil =>
    intro _ _
    constructor
    · simp [qtyChkGo]
    · intro h; exact absurd h (by simp)
  | cons row rest ih =>
    intro hs hn
    rcases hs row (List.mem_cons_self _ _) with ⟨s, hsrow⟩
    rcases hn row (List.mem_cons_self _ _) with ⟨v, hvrow⟩
    have ihspec := ih (fun r hr => hs r (List.mem_cons_of_mem _ hr))
      (fun r hr => hn r (List.mem_cons_of_mem _ hr))
    have hstep : qtyChkGo qi di (row :: rest) =
        if (row.getD qi PCell.pnan).neNat (pySplit (· = ',') s).length then
          .failure (row.getD 0 PCell.pnan)
        else qtyChkGo qi di rest := by
      rw [qtyChkGo, hsrow]
      rfl
    by_cases hmatch : rowQtyMatches qi di row
    · have hne : (row.getD qi PCell.pnan).neNat (pySplit (· = ',') s).length = false :=
        (neNat_eq_false_iff qi di row v s hvrow hsrow).mpr hmatch
      rw [hne] at hstep
      simp only [Bool.false_eq_true, if_false] at hstep
      constructor
      · rw [hstep, ihspec.1]
        constructor
        · intro h r hr
          rcases List.mem_cons.mp hr with rfl | hr'
          · exact hmatch
          · exact h r hr'
        · intro h r hr
          exact h r (List.mem_cons_of_mem _ hr)
      · intro hex
        have hex' : ∃ r ∈ rest, ¬ rowQtyMatches qi di r := by
          rcases hex with ⟨r, hr, hnm⟩
          rcases List.mem_cons.mp hr with rfl | hr'
          · exact absurd hmatch hnm
          · exact ⟨r, hr', hnm⟩
        rcases ihspec.2 hex' with ⟨r, hr, hnm, hres⟩
        exact ⟨r, List.mem_cons_of_mem _ hr, hnm, by rw [hstep]; exact hres⟩
    · have hne : (row.getD qi PCell.pnan).neNat (pySplit (· = ',') s).length = true := by
        rcases Bool.eq_false_or_eq_true ((row.getD qi PCell.pnan).neNat
          (pySplit (· = ',') s).length) with h | h
        · exact h
        · exact absurd ((neNat_eq_false_iff qi di row v s hvrow hsrow).mp h) hmatch
      rw [hne] at hstep
      simp only [if_true] at hstep
      constructor
      · rw [hstep]
        constructor
        · intro h; exact absurd h (by simp)
        · intro h; exact absurd (h row (List.mem_cons_self _ _)) hmatch
      · intro _
        exact ⟨row, List.mem_cons_self _ _, hmatch, hstep⟩

/-- C7 (confirmed): with a single exact `"Qty"` column and a single partial
`"Designator"` column, over rows whose designator cells are strings and
quantity cells numeric, `check_qty_matched_ref_des_count` is a hard failure
naming the offending record exactly when some record's declared quantity
differs from the length of its comma-separated designator list, and passes
exactly when every record satisfies `quantity == count(designator_list)`. -/
theorem claim7_qty_check (headers : List String) (qi di : Nat)
    (rows : List (List PCell))
    (hq : qtyCols headers = [qi])
    (hd : designatorCols headers = [di])
    (hs : ∀ row ∈ rows, ∃ s, row.getD di PCell.pnan = PCell.ps s)
    (hn : ∀ row ∈ rows, ∃ v : ℚ, row.getD qi PCell.pnan = PCell.pn v) :
    (check_qty_matched_ref_des_count headers rows = .passed ↔
      ∀ row ∈ rows, rowQtyMatches qi di row) ∧
    ((∃ row ∈ rows, ¬ rowQtyMatches qi di row) →
      ∃ row ∈ rows, ¬ rowQtyMatches qi di row ∧
        check_qty_matched_ref_des_count headers rows =
          .failure (row.getD 0 PCell.pnan)) := by
  have hcheck : check_qty_matched_ref_des_count headers rows = qtyChkGo qi di rows := by
    unfold check_qty_matched_ref_des_count
    rw [hq, hd]
  rw [hcheck]
  exact qtyChkGo_spec qi di rows hs hn

/-- C7 (witness): the check theorem applied to a concrete passing table and
a concrete failing table. -/
theorem claim7_witness :
    (check_qty_matched_ref_des_count ["Qty", "Designator"]
      [[PCell.pn 2, PCell.ps "R1,R2"], [PCell.pn 1, PCell.ps "C3"]] = .passed) ∧
    (∃ row ∈ [[PCell.pn 3, PCell.ps "R1,R2"]],
      ¬ rowQtyMatches 0 1 row ∧
      check_qty_matched_ref_des_count ["Qty", "Designator"]
        [[PCell.pn 3, PCell.ps "R1,R2"]] = .failure (row.getD 0 PCell.pnan)) := by
  constructor
  · exact (claim7_qty_check ["Qty", "Designator"] 0 1
      [[PCell.pn 2, PCell.ps "R1,R2"], [PCell.pn 1, PCell.ps "C3"]]
      (by decide) (by decide)
      (by intro row hr; fin_cases hr
          · exact ⟨"R1,R2", rfl⟩
          · exact ⟨"C3", rfl⟩)
      (by intro row hr; fin_cases hr
          · exact ⟨2, rfl⟩
          · exact ⟨1, rfl⟩)).1.mpr (by decide)
  · exact (claim7_qty_check ["Qty", "Designator"] 0 1
      [[PCell.pn 3, PCell.ps "R1,R2"]]
      (by decide) (by decide)
      (by intro row hr; fin_cases hr; exact ⟨"R1,R2", rfl⟩)
      (by intro row hr; fin_cases hr; exact ⟨3, rfl⟩)).2
      ⟨[PCell.pn 3, PCell.ps "R1,R2"], by decide, by decide⟩

/-- The expansion of one non-exempt row with matching manufacturer and
part-number counts. -/
theorem splitManufacturerRow_ok (ci ni pi qi : Nat) (row : List PCell)
    (comp name pn : String)
    (hcomp : row.getD ci PCell.pnan = PCell.ps comp)
    (hname : row.getD ni PCell.pnan = PCell.ps name)
    (hpn : row.getD pi PCell.pnan = PCell.ps pn)
    (hlen : (pySplit (· = '\n') name).length = (pySplit (· = '\n') pn).length)
    (hexempt : exceptionList.any
      (fun ref => pyContains (pyLower comp) (pyLower ref)) = false) :
    splitManufacturerRow ci ni pi qi row =
      .ok ((List.range (pySplit (· = '\n') name).length).map (fun i =>
        let r := ((row.set ni (PCell.ps ((pySplit (· = '\n') name).getD i ""))).set pi
          (PCell.ps ((pySplit (· = '\n') pn).getD i "")))
        if i ≠ 0 then r.set qi (PCell.pn 0) else r)) := by
  unfold splitManufacturerRow
  rw [hcomp, hname, hpn]
  simp only [PCell.getStr, bind, Except.bind, pure, Except.pure]
  rw [if_neg (by simp [hlen])]
  rw [hexempt]
  simp

/-- C6 (confirmed): with the four columns located (Manufacturer and Component
by exact match, P/N and Qty by partial match) at distinct in-range indices,
every record whose manufacturer cell splits into `k` newline-delimited names
with `k` matching part numbers and whose component type contains no
split-exempt substring is expanded into exactly `k` records, one per
manufacturer/part-number pair in order; the first produced record keeps the
original quantity cell and every subsequent one gets quantity `0`. -/
theorem claim6_manufacturer_split (headers : List String) (ci ni pi qi : Nat)
    (row : List PCell) (comp name pn : String)
    (hm : get_single_header_index headers "Manufacturer" true = .ok ni)
    (hc : get_single_header_index headers "Component" true = .ok ci)
    (hp : get_single_header_index headers "P/N" false = .ok pi)
    (hq : get_single_header_index headers "Qty" false = .ok qi)
    (hniL : ni < row.length) (hpiL : pi < row.length) (hqiL : qi < row.length)
    (hnp : ni ≠ pi) (hnq : ni ≠ qi) (hpq : pi ≠ qi)
    (hcomp : row.getD ci PCell.pnan = PCell.ps comp)
    (hname : row.getD ni PCell.pnan = PCell.ps name)
    (hpn : row.getD pi PCell.pnan = PCell.ps pn)
    (hlen : (pySplit (· = '\n') name).length = (pySplit (· = '\n') pn).length)
    (hexempt : ∀ e ∈ exceptionList, pyContains (pyLower comp) (pyLower e) = false) :
    ∃ out, split_manufacturers_to_separate_rows headers [row] = .ok out ∧
      out.length = (pySplit (· = '\n') name).length ∧
      (∀ i, i < out.length →
        (out.getD i []).getD ni PCell.pnan =
          PCell.ps ((pySplit (· = '\n') name).getD i "") ∧
        (out.getD i []).getD pi PCell.pnan =
          PCell.ps ((pySplit (· = '\n') pn).getD i "") ∧
        (out.getD i []).getD qi PCell.pnan =
          (if i = 0 then row.getD qi PCell.pnan else PCell.pn 0)) := by
  have hany : exceptionList.any
      (fun ref => pyContains (pyLower comp) (pyLower ref)) = false :=
    List.any_eq_false.mpr (fun e he => by rw [hexempt e he]; exact Bool.false_ne_true)
  have hrow := splitManufacturerRow_ok ci ni pi qi row comp name pn
    hcomp hname hpn hlen hany
  refine ⟨(List.range (pySplit (· = '\n') name).length).map (fun i =>
      let r := ((row.set ni (PCell.ps ((pySplit (· = '\n') name).getD i ""))).set pi
        (PCell.ps ((pySplit (· = '\n') pn).getD i "")))
      if i ≠ 0 then r.set qi (PCell.pn 0) else r), ?_, ?_, ?_⟩
  · unfold split_manufacturers_to_separate_rows
    rw [hm, hc, hp, hq]
    simp only [bind, Except.bind]
    rw [splitRowsLoop, hrow]
    simp only [bind, Except.bind, splitRowsLoop, pure, Except.pure]
    rw [List.append_nil]
  · simp
  · intro i hi
    simp only [List.length_map, List.length_range] at hi
    have hget : ((List.range (pySplit (· = '\n') name).length).map (fun i =>
        let r := ((row.set ni (PCell.ps ((pySplit (· = '\n') name).getD i ""))).set pi
          (PCell.ps ((pySplit (· = '\n') pn).getD i "")))
        if i ≠ 0 then r.set qi (PCell.pn 0) else r)).getD i [] =
        (let r := ((row.set ni (PCell.ps ((pySplit (· = '\n') name).getD i ""))).set pi
          (PCell.ps ((pySplit (· = '\n') pn).getD i "")))
        if i ≠ 0 then r.set qi (PCell.pn 0) else r) := by
      rw [List.getD_eq_getElem?_getD, List.getElem?_map, List.getElem?_range hi]
      rfl
    rw [hget]
    by_cases hi0 : i = 0
    · subst hi0
      simp only [ne_eq, not_true_eq_false, if_false, if_pos rfl]
      refine ⟨?_, ?_, ?_⟩
      · rw [List.getD_eq_getElem?_getD, List.getElem?_set_ne hnp.symm,
          List.getElem?_set_self (by omega)]
        rfl
      · rw [List.getD_eq_getElem?_getD, List.getElem?_set_self
          (by rw [List.length_set]; omega)]
        rfl
      · rw [List.getD_eq_getElem?_getD, List.getElem?_set_ne hpq,
          List.getElem?_set_ne hnq, ← List.getD_eq_getElem?_getD]
        simp
    · simp only [ne_eq, hi0, not_false_eq_true, if_true, if_neg hi0]
      refine ⟨?_, ?_, ?_⟩
      · rw [List.getD_eq_getElem?_getD, List.getElem?_set_ne hnq.symm,
          List.getElem?_set_ne hnp.symm, List.getElem?_set_self (by omega)]
        rfl
      · rw [List.getD_eq_getElem?_getD, List.getElem?_set_ne hpq.symm,
          List.getElem?_set_self (by rw [List.length_set]; omega)]
        rfl
      · rw [List.getD_eq_getElem?_getD, List.getElem?_set_self
          (by rw [List.length_set, List.length_set]; omega)]
        rfl

/-- C6 (witness): the split theorem applied to the claim's concrete record —
manufacturer cell `"Acme\nBeta"`, part-number cell `"111\n222"`, quantity
`"1"` — together with the direct evaluation showing the two produced records
`("Acme", "111", qty "1")` and `("Beta", "222", qty 0)`, in that order. -/
theorem claim6_witness :
    split_manufacturers_to_separate_rows
      ["Component", "Manufacturer", "Manufacturer P/N", "Qty"]
      [[PCell.ps "IC", PCell.ps "Acme\nBeta", PCell.ps "111\n222", PCell.ps "1"]] =
      .ok [[PCell.ps "IC", PCell.ps "Acme", PCell.ps "111", PCell.ps "1"],
           [PCell.ps "IC", PCell.ps "Beta", PCell.ps "222", PCell.pn 0]] ∧
    (∃ out, split_manufacturers_to_separate_rows
        ["Component", "Manufacturer", "Manufacturer P/N", "Qty"]
        [[PCell.ps "IC", PCell.ps "Acme\nBeta", PCell.ps "111\n222", PCell.ps "1"]] =
        .ok out ∧
      out.length = (pySplit (· = '\n') "Acme\nBeta").length ∧
      (∀ i, i < out.length →
        (out.getD i []).getD 1 PCell.pnan =
          PCell.ps ((pySplit (· = '\n') "Acme\nBeta").getD i "") ∧
        (out.getD i []).getD 2 PCell.pnan =
          PCell.ps ((pySplit (· = '\n') "111\n222").getD i "") ∧
        (out.getD i []).getD 3 PCell.pnan =
          (if i = 0 then
            ([PCell.ps "IC", PCell.ps "Acme\nBeta", PCell.ps "111\n222",
              PCell.ps "1"].getD 3 PCell.pnan)
          else PCell.pn 0))) := by
  constructor
  · decide
  · exact claim6_manufacturer_split
      ["Component", "Manufacturer", "Manufacturer P/N", "Qty"] 0 1 2 3
      [PCell.ps "IC", PCell.ps "Acme\nBeta", PCell.ps "111\n222", PCell.ps "1"]
      "IC" "Acme\nBeta" "111\n222"
      (by decide) (by decide) (by decide) (by decide)
      (by decide) (by decide) (by decide)
      (by decide) (by decide) (by decide)
      (by decide) (by decide) (by decide)
      (by decide) (by decide)

/-! ## Idempotence analysis of the Taxonomy Normalizer -/

/-- Setting a list entry to its own current value changes nothing. -/
theorem set_getD_self {α : Type} (l : List α) (i : Nat) (d : α)
    (h : i < l.length) : l.set i (l.getD i d) = l := by
  apply List.ext_getElem?
  intro n
  by_cases hn : i = n
  · subst hn
    rw [List.getElem?_set_self h, List.getD_eq_getElem?_getD,
      List.getElem?_eq_getElem h]
    rfl
  · rw [List.getElem?_set_ne hn]

section CanonicalFixedPoints

set_option maxRecDepth 1000000
set_option maxHeartbeats 1000000000

/-- The canonical value "Battery Terminals" is a fixed point of the two-matcher consensus. -/
theorem canonFixBatteryTerminals : normalizeComponentValue "Battery Terminals" = Except.ok "Battery Terminals" := by
  decide

/-- The canonical value "Buzzer" is a fixed point of the two-matcher consensus. -/
theorem canonFixBuzzer : normalizeComponentValue "Buzzer" = Except.ok "Buzzer" := by
  decide

/-- The canonical value "Cable" is a fixed point of the two-matcher consensus. -/
theorem canonFixCable : normalizeComponentValue "Cable" = Except.ok "Cable" := by
  decide

/-- The canonical value "Crystal" is a fixed point of the two-matcher consensus. -/
theorem canonFixCrystal : normalizeComponentValue "Crystal" = Except.ok "Crystal" := by
  decide

/-- The canonical value "Electromagnet" is a fixed point of the two-matcher consensus. -/
theorem canonFixElectromagnet : normalizeComponentValue "Electromagnet" = Except.ok "Electromagnet" := by
  decide

/-- The canonical value "Foam" is a fixed point of the two-matcher consensus. -/
theorem canonFixFoam : normalizeComponentValue "Foam" = Except.ok "Foam" := by
  decide

/-- The canonical value "FUSE" is a fixed point of the two-matcher consensus. -/
theorem canonFixFUSE : normalizeComponentValue "FUSE" = Except.ok "FUSE" := by
  decide

/-- The canonical value "Heatsink" is a fixed point of the two-matcher consensus. -/
theorem canonFixHeatsink : normalizeComponentValue "Heatsink" = Except.ok "Heatsink" := by
  decide

/-- The canonical value "Inductor" is a fixed point of the two-matcher consensus. -/
theorem canonFixInductor : normalizeComponentValue "Inductor" = Except.ok "Inductor" := by
  decide

/-- The canonical value "Jumper" is a fixed point of the two-matcher consensus. -/
theorem canonFixJumper : normalizeComponentValue "Jumper" = Except.ok "Jumper" := by
  decide

/-- The canonical value "LCD" is a fixed point of the two-matcher consensus. -/
theorem canonFixLCD : normalizeComponentValue "LCD" = Except.ok "LCD" := by
  decide

/-- The canonical value "LED" is a fixed point of the two-matcher consensus. -/
theorem canonFixLED : normalizeComponentValue "LED" = Except.ok "LED" := by
  decide

/-- The canonical value "LED Module" is a fixed point of the two-matcher consensus. -/
theorem canonFixLEDModule : normalizeComponentValue "LED Module" = Except.ok "LED Module" := by
  decide

/-- The canonical value "MCU" is a fixed point of the two-matcher consensus. -/
theorem canonFixMCU : normalizeComponentValue "MCU" = Except.ok "MCU" := by
  decide

/-- The canonical value "MOV/Varistor" is a fixed point of the two-matcher consensus. -/
theorem canonFixMOVVaristor : normalizeComponentValue "MOV/Varistor" = Except.ok "MOV/Varistor" := by
  decide

/-- The canonical value "Optocoupler" is a fixed point of the two-matcher consensus. -/
theorem canonFixOptocoupler : normalizeComponentValue "Optocoupler" = Except.ok "Optocoupler" := by
  decide

/-- The canonical value "PCB" is a fixed point of the two-matcher consensus. -/
theorem canonFixPCB : normalizeComponentValue "PCB" = Except.ok "PCB" := by
  decide

/-- The canonical value "Relay" is a fixed point of the two-matcher consensus. -/
theorem canonFixRelay : normalizeComponentValue "Relay" = Except.ok "Relay" := by
  decide

/-- The canonical value "Sensor" is a fixed point of the two-matcher consensus. -/
theorem canonFixSensor : normalizeComponentValue "Sensor" = Except.ok "Sensor" := by
  decide

/-- The canonical value "TCO" is a fixed point of the two-matcher consensus. -/
theorem canonFixTCO : normalizeComponentValue "TCO" = Except.ok "TCO" := by
  decide

/-- The canonical value "Thermistors" is a fixed point of the two-matcher consensus. -/
theorem canonFixThermistors : normalizeComponentValue "Thermistors" = Except.ok "Thermistors" := by
  decide

/-- The canonical value "Transformer" is a fixed point of the two-matcher consensus. -/
theorem canonFixTransformer : normalizeComponentValue "Transformer" = Except.ok "Transformer" := by
  decide

/-- The canonical value "Triac/SCR" is a fixed point of the two-matcher consensus. -/
theorem canonFixTriacSCR : normalizeComponentValue "Triac/SCR" = Except.ok "Triac/SCR" := by
  decide

/-- The canonical value "Unknown/Misc" is a fixed point of the two-matcher consensus. -/
theorem canonFixUnknownMisc : normalizeComponentValue "Unknown/Misc" = Except.ok "Unknown/Misc" := by
  decide

/-- The canonical value "Voltage Regulator" is a fixed point of the two-matcher consensus. -/
theorem canonFixVoltageRegulator : normalizeComponentValue "Voltage Regulator" = Except.ok "Voltage Regulator" := by
  decide

/-- The canonical value "Wire" is a fixed point of the two-matcher consensus. -/
theorem canonFixWire : normalizeComponentValue "Wire" = Except.ok "Wire" := by
  decide

/-- The canonical value "Chimney" is a fixed point of the two-matcher consensus. -/
theorem canonFixChimney : normalizeComponentValue "Chimney" = Except.ok "Chimney" := by
  decide

/-- The canonical value "Capacitor" is a fixed point of the two-matcher consensus. -/
theorem canonFixCapacitor : normalizeComponentValue "Capacitor" = Except.ok "Capacitor" := by
  decide

/-- The canonical value "Heat Sink" is a fixed point of the two-matcher consensus. -/
theorem canonFixHeatSink : normalizeComponentValue "Heat Sink" = Except.ok "Heat Sink" := by
  decide

/-- The canonical value "Lens" is a fixed point of the two-matcher consensus. -/
theorem canonFixLens : normalizeComponentValue "Lens" = Except.ok "Lens" := by
  decide

/-- The canonical value "Transistor" is a fixed point of the two-matcher consensus. -/
theorem canonFixTransistor : normalizeComponentValue "Transistor" = Except.ok "Transistor" := by
  decide

/-- The canonical value "IC" is a fixed point of the two-matcher consensus. -/
theorem canonFixIC : normalizeComponentValue "IC" = Except.ok "IC" := by
  decide

/-- The canonical value "Connector" is a fixed point of the two-matcher consensus. -/
theorem canonFixConnector : normalizeComponentValue "Connector" = Except.ok "Connector" := by
  decide

/-- The canonical value "Screw" is a fixed point of the two-matcher consensus. -/
theorem canonFixScrew : normalizeComponentValue "Screw" = Except.ok "Screw" := by
  decide

/-- The canonical value "Switch" is a fixed point of the two-matcher consensus. -/
theorem canonFixSwitch : normalizeComponentValue "Switch" = Except.ok "Switch" := by
  decide

/-- The canonical value "Spring" is a fixed point of the two-matcher consensus. -/
theorem canonFixSpring : normalizeComponentValue "Spring" = Except.ok "Spring" := by
  decide

/-- The canonical value "Resistor" is a fixed point of the two-matcher consensus. -/
theorem canonFixResistor : normalizeComponentValue "Resistor" = Except.ok "Resistor" := by
  decide

/-- The canonical value "Diode" is a fixed point of the two-matcher consensus. -/
theorem canonFixDiode : normalizeComponentValue "Diode" = Except.ok "Diode" := by
  decide

end CanonicalFixedPoints

/-- Every canonical component-type name except `"Heat Shrink"` is a fixed
point of the two-matcher consensus (verified value by value over the whole
dictionary). -/
theorem canonical_values_fixed :
    (((component_dict.map Prod.snd).dedup).all (fun v =>
      v = "Heat Shrink" || decide (normalizeComponentValue v = .ok v))) = true := by
  have hL : (component_dict.map Prod.snd).dedup =
      ["Battery Terminals", "Buzzer", "Cable", "Crystal", "Electromagnet", "Foam", "FUSE", "Heatsink", "Inductor", "Jumper", "LCD", "LED", "LED Module", "MCU", "MOV/Varistor", "Optocoupler", "PCB", "Relay", "Sensor", "TCO", "Thermistors", "Transformer", "Triac/SCR", "Unknown/Misc", "Voltage Regulator", "Wire", "Chimney", "Capacitor", "Heat Shrink", "Heat Sink", "Lens", "Transistor", "IC", "Connector", "Screw", "Switch", "Spring", "Resistor", "Diode"] := by decide
  rw [hL]
  simp only [List.all_cons, List.all_nil, Bool.and_eq_true]
  exact ⟨Bool.or_eq_true_iff.mpr (Or.inr (decide_eq_true canonFixBatteryTerminals)),
    Bool.or_eq_true_iff.mpr (Or.inr (decide_eq_true canonFixBuzzer)),
    Bool.or_eq_true_iff.mpr (Or.inr (decide_eq_true canonFixCable)),
    Bool.or_eq_true_iff.mpr (Or.inr (decide_eq_true canonFixCrystal)),
    Bool.or_eq_true_iff.mpr (Or.inr (decide_eq_true canonFixElectromagnet)),
    Bool.or_eq_true_iff.mpr (Or.inr (decide_eq_true canonFixFoam)),
    Bool.or_eq_true_iff.mpr (Or.inr (decide_eq_true canonFixFUSE)),
    Bool.or_eq_true_iff.mpr (Or.inr (decide_eq_true canonFixHeatsink)),
    Bool.or_eq_true_iff.mpr (Or.inr (decide_eq_true canonFixInductor)),
    Bool.or_eq_true_iff.mpr (Or.inr (decide_eq_true canonFixJumper)),
    Bool.or_eq_true_iff.mpr (Or.inr (decide_eq_true canonFixLCD)),
    Bool.or_eq_true_iff.mpr (Or.inr (decide_eq_true canonFixLED)),
    Bool.or_eq_true_iff.mpr (Or.inr (decide_eq_true canonFixLEDModule)),
    Bool.or_eq_true_iff.mpr (Or.inr (decide_eq_true canonFixMCU)),
    Bool.or_eq_true_iff.mpr (Or.inr (decide_eq_true canonFixMOVVaristor)),
    Bool.or_eq_true_iff.mpr (Or.inr (decide_eq_true canonFixOptocoupler)),
    Bool.or_eq_true_iff.mpr (Or.inr (decide_eq_true canonFixPCB)),
    Bool.or_eq_true_iff.mpr (Or.inr (decide_eq_true canonFixRelay)),
    Bool.or_eq_true_iff.mpr (Or.inr (decide_eq_true canonFixSensor)),
    Bool.or_eq_true_iff.mpr (Or.inr (decide_eq_true canonFixTCO)),
    Bool.or_eq_true_iff.mpr (Or.inr (decide_eq_true canonFixThermistors)),
    Bool.or_eq_true_iff.mpr (Or.inr (decide_eq_true canonFixTransformer)),
    Bool.or_eq_true_iff.mpr (Or.inr (decide_eq_true canonFixTriacSCR)),
    Bool.or_eq_true_iff.mpr (Or.inr (decide_eq_true canonFixUnknownMisc)),
    Bool.or_eq_true_iff.mpr (Or.inr (decide_eq_true canonFixVoltageRegulator)),
    Bool.or_eq_true_iff.mpr (Or.inr (decide_eq_true canonFixWire)),
    Bool.or_eq_true_iff.mpr (Or.inr (decide_eq_true canonFixChimney)),
    Bool.or_eq_true_iff.mpr (Or.inr (decide_eq_true canonFixCapacitor)),
    rfl,
    Bool.or_eq_true_iff.mpr (Or.inr (decide_eq_true canonFixHeatSink)),
    Bool.or_eq_true_iff.mpr (Or.inr (decide_eq_true canonFixLens)),
    Bool.or_eq_true_iff.mpr (Or.inr (decide_eq_true canonFixTransistor)),
    Bool.or_eq_true_iff.mpr (Or.inr (decide_eq_true canonFixIC)),
    Bool.or_eq_true_iff.mpr (Or.inr (decide_eq_true canonFixConnector)),
    Bool.or_eq_true_iff.mpr (Or.inr (decide_eq_true canonFixScrew)),
    Bool.or_eq_true_iff.mpr (Or.inr (decide_eq_true canonFixSwitch)),
    Bool.or_eq_true_iff.mpr (Or.inr (decide_eq_true canonFixSpring)),
    Bool.or_eq_true_iff.mpr (Or.inr (decide_eq_true canonFixResistor)),
    Bool.or_eq_true_iff.mpr (Or.inr (decide_eq_true canonFixDiode)),
    trivial⟩

/-- A canonical component-type value other than `"Heat Shrink"` is left
unchanged by the consensus rewrite. -/
theorem normalizeComponentValue_fixed (v : String)
    (hv : v ∈ component_dict.map Prod.snd) (hne : v ≠ "Heat Shrink") :
    normalizeComponentValue v = .ok v := by
  have h := List.all_eq_true.mp canonical_values_fixed v (List.mem_dedup.mpr hv)
  rcases Bool.or_eq_true_iff.mp h with h1 | h2
  · exact absurd (of_decide_eq_true h1) hne
  · exact of_decide_eq_true h2

set_option maxRecDepth 1000000 in
set_option maxHeartbeats 1000000000 in
/-- C4 (counterexample): the first run maps the component type
`"Heat Shrink Tubing"` to the canonical value `"Heat Shrink"`, but a second
run over that already-canonical output changes the record again, to
`"Heat Sink"` (both matchers agree on the key `"Heat Sink"`): the second
pass is not a no-op on canonical input. -/
theorem claim4_counterexample :
    normalize_component_type_label ["Component"] [["Heat Shrink Tubing"]] =
      .ok [["Heat Shrink"]] ∧
    "Heat Shrink" ∈ component_dict.map Prod.snd ∧
    normalize_component_type_label ["Component"] [["Heat Shrink"]] =
      .ok [["Heat Sink"]] ∧
    [["Heat Sink"]] ≠ [["Heat Shrink"]] := by
  refine ⟨by decide, by decide, by decide, by decide⟩

/-- The cons unfolding of the normalizer's row loop. -/
theorem normalizeRowsLoop_cons (ci : Nat) (row : List String)
    (rest : List (List String)) :
    normalizeRowsLoop ci (row :: rest) = do
      let v ← normalizeComponentValue (row.getD ci "")
      let rest2 ← normalizeRowsLoop ci rest
      return (row.set ci v) :: rest2 := rfl

/-- C4 (amended): running the Taxonomy Normalizer on a table whose
component-type values are already canonical changes no record — except for
records whose value is `"Heat Shrink"`, which the consensus re-maps to
`"Heat Sink"` (the exception the counterexample forces).  So a second run
over first-run output is the identity whenever no record carries
`"Heat Shrink"`. -/
theorem claim4_amended (headers : List String) (ci : Nat)
    (rows : List (List String))
    (hci : componentCol headers = some ci)
    (hrows : ∀ row ∈ rows, ci < row.length ∧
      row.getD ci "" ∈ component_dict.map Prod.snd ∧
      row.getD ci "" ≠ "Heat Shrink") :
    normalize_component_type_label headers rows = .ok rows := by
  unfold normalize_component_type_label
  rw [hci]
  dsimp only
  induction rows with
  | nil => rfl
  | cons row rest ih =>
    rcases hrows row (List.mem_cons_self _ _) with ⟨hlen, hmem, hne⟩
    rw [normalizeRowsLoop_cons, normalizeComponentValue_fixed _ hmem hne]
    simp only [bind, Except.bind]
    rw [ih (fun r hr => hrows r (List.mem_cons_of_mem _ hr))]
    simp only [pure, Except.pure]
    rw [set_getD_self row ci "" hlen]

/-- C4 (witness): the amended theorem applied to a concrete two-record
canonical table. -/
theorem claim4_witness :
    normalize_component_type_label ["Component"] [["Capacitor"], ["Diode"]] =
      .ok [["Capacitor"], ["Diode"]] :=
  claim4_amended ["Component"] 0 [["Capacitor"], ["Diode"]] (by decide)
    (by
      intro row hr
      fin_cases hr
      · exact ⟨by decide, by decide, by decide⟩
      · exact ⟨by decide, by decide, by decide⟩)
